import Mathlib

/-!
# Verification of the video2x transcoding pipeline core

Shallow embedding of the pipeline orchestration code of this repository:
`src/encoder.cpp` (the `Encoder` class: stream mapping, `write_frame`,
`flush`) and `src/libvideo2x.cpp` (`process_frames`, the tail of
`process_video`).

libavcodec / libavformat and the image filter are external collaborators;
they are modelled by small state machines that realise the contracts the
code relies on (send/receive with EAGAIN/EOF semantics, an interleaving
muxer that appends packets, a FIFO filter with temporal buffering).  The
control flow of the repository's own functions is translated line by line.
-/

/-! ## FFmpeg status codes (libavutil/error.h values) -/

def AVERROR_EAGAIN : Int := -11

def AVERROR_EOF : Int := -541478725

def AVERROR_EXTERNAL : Int := -542398533

def AVERROR_ENOMEM : Int := -12

def AVERROR_UNKNOWN : Int := -1313558101

/-! ## Basic data model: rationals, frames, packets -/

/-- `AVRational`: the rational time-base unit of a stream. -/
structure AVRational where
  num : Int
  den : Int
deriving DecidableEq, Repr

/-- Model of `av_rescale_q`: convert a timestamp from time base `bq` to
time base `cq` (external libavutil helper; exact when the product divides,
which covers every use in the claims). -/
def av_rescale_q (a : Int) (bq : AVRational) (cq : AVRational) : Int :=
  a * bq.num * cq.den / (bq.den * cq.num)

/-- A raw decoded frame: presentation timestamp and pixel format.  Only the
fields the orchestration code inspects are modelled. -/
structure VFrame where
  pts : Int
  format : Int
deriving DecidableEq, Repr

/-- A compressed packet: timestamps and the container stream index. -/
structure VPacket where
  pts : Int
  dts : Int
  stream_index : Int
deriving DecidableEq, Repr

/-! ## Encoder codec model (libavcodec collaborator)

Modelled from the spec: the encode capability is "send raw frame, receive
compressed unit" with internal buffering; sending `NULL` enters draining
mode, a second `NULL` send returns `AVERROR_EOF`, receiving from an empty
encoder yields `AVERROR(EAGAIN)` (or `AVERROR_EOF` once draining).  The
model encoder emits one packet per frame, carrying the frame's pts. -/

structure EncCodecState where
  buffered : List VPacket
  draining : Bool
deriving DecidableEq, Repr

/-- Model of `avcodec_send_frame`.  `none` is the `NULL` flush signal. -/
def avcodec_send_frame (s : EncCodecState) (f : Option VFrame) : Int × EncCodecState :=
  match f with
  | some fr =>
    if s.draining then (AVERROR_EOF, s)
    else (0, { s with buffered := s.buffered ++ [{ pts := fr.pts, dts := fr.pts, stream_index := 0 }] })
  | none =>
    if s.draining then (AVERROR_EOF, s)
    else (0, { s with draining := true })

/-- One observed response of the `avcodec_receive_packet` /
`av_interleaved_write_frame` pair inside the drain loop: either a packet
(with the status the subsequent interleaved write returns), or a receive
status. -/
inductive RecvStep where
  | pkt (p : VPacket) (mux_ret : Int)
  | err (e : Int)
deriving DecidableEq, Repr

/-- The sequence of `avcodec_receive_packet` responses the model encoder
produces: each buffered packet in order (the model muxer always returns 0),
then `AVERROR(EAGAIN)` — or `AVERROR_EOF` when draining. -/
def enc_trace (s : EncCodecState) : List RecvStep :=
  s.buffered.map (fun p => RecvStep.pkt p 0) ++
    [RecvStep.err (if s.draining then AVERROR_EOF else AVERROR_EAGAIN)]

/-- Rescale a packet's timestamps from the encoder time base to the output
video stream's time base and tag it with the output video stream index
(`src/encoder.cpp` lines 259-263 and 307-311). -/
def rescale_tag (tb_enc : AVRational) (tb_out : AVRational) (vidx : Int) (p : VPacket) : VPacket :=
  { pts := av_rescale_q p.pts tb_enc tb_out
    dts := av_rescale_q p.dts tb_enc tb_out
    stream_index := vidx }

/-- The receive-and-write drain loop shared by `Encoder::write_frame`
(`src/encoder.cpp` lines 247-273) and `Encoder::flush` (lines 295-321),
over an explicit list of collaborator responses: receive a packet; on
`AVERROR(EAGAIN)` or `AVERROR_EOF` break (the caller then returns 0); on
another negative receive status return it; otherwise rescale, tag with the
output video stream index, write interleaved, and return a negative mux
status unchanged.  Returns the final status and the packets that reached
the muxer. -/
def drain_g (tb_enc : AVRational) (tb_out : AVRational) (vidx : Int) : List RecvStep → Int × List VPacket
  | [] => (0, [])
  | RecvStep.err e :: _ =>
    if e = AVERROR_EAGAIN ∨ e = AVERROR_EOF then (0, []) else (e, [])
  | RecvStep.pkt p m :: rest =>
    let q := rescale_tag tb_enc tb_out vidx p
    if m < 0 then (m, [])
    else
      let r := drain_g tb_enc tb_out vidx rest
      (r.1, q :: r.2)

/-- State of the output container (libavformat collaborator): the output
streams' time bases (index = output stream index) and the packets written
through `av_interleaved_write_frame`, in write order. -/
structure MuxState where
  streams : List AVRational
  written : List VPacket
deriving DecidableEq, Repr

/-- Embedding of `Encoder::write_frame` (`src/encoder.cpp` lines 209-277):
set the frame's pts to the caller's sequence number if unset (`<= 0`);
convert the pixel format to the encoder's if it differs, propagating the
pts; send the frame to the encoder; propagate a negative send status;
otherwise run the drain loop and append the written packets to the muxer.
With the concrete codec model the drain always consumes the whole encoder
buffer. -/
def Encoder.write_frame (tb_enc : AVRational) (pix_fmt : Int) (vidx : Nat)
    (enc : EncCodecState) (mux : MuxState) (frame : VFrame) (frame_idx : Int) :
    Int × EncCodecState × MuxState :=
  let f1 := if frame.pts ≤ 0 then { frame with pts := frame_idx } else frame
  let f2 := if f1.format ≠ pix_fmt then { f1 with format := pix_fmt } else f1
  let s := avcodec_send_frame enc (some f2)
  if s.1 < 0 then (s.1, s.2, mux)
  else
    let tb_out := mux.streams.getD vidx ⟨1, 1⟩
    let r := drain_g tb_enc tb_out (vidx : Int) (enc_trace s.2)
    (r.1, { s.2 with buffered := [] }, { mux with written := mux.written ++ r.2 })

/-- Embedding of `Encoder::flush` (`src/encoder.cpp` lines 279-325): send
the `NULL` flush signal to the encoder; propagate a negative send status;
otherwise run the same drain loop as `write_frame`. -/
def Encoder.flush (tb_enc : AVRational) (vidx : Nat)
    (enc : EncCodecState) (mux : MuxState) : Int × EncCodecState × MuxState :=
  let s := avcodec_send_frame enc none
  if s.1 < 0 then (s.1, s.2, mux)
  else
    let tb_out := mux.streams.getD vidx ⟨1, 1⟩
    let r := drain_g tb_enc tb_out (vidx : Int) (enc_trace s.2)
    (r.1, { s.2 with buffered := [] }, { mux with written := mux.written ++ r.2 })

/-- `Encoder::write_frame`'s status plumbing over arbitrary collaborator
responses (`src/encoder.cpp` lines 234-276): a negative
`avcodec_send_frame` status is returned unchanged, otherwise the drain loop
runs on the environment's receive/mux responses. -/
def write_frame_env (tb_enc : AVRational) (tb_out : AVRational) (vidx : Int)
    (send_ret : Int) (trace : List RecvStep) : Int × List VPacket :=
  if send_ret < 0 then (send_ret, [])
  else drain_g tb_enc tb_out vidx trace

/-! ## Stream passthrough mapper (`Encoder::init`, stream-mapping phase) -/

inductive MediaType where
  | video
  | audio
  | subtitle
  | data
  | attachment
  | unknown
deriving DecidableEq, Repr

/-- Codec parameters of a stream: media type, container codec tag, and an
identifier standing for the remaining parameters that
`avcodec_parameters_copy` copies verbatim. -/
structure CodecPar where
  codec_type : MediaType
  codec_tag : Nat
  codec_id : Nat
deriving DecidableEq, Repr

/-- An input container stream (`ifmt_ctx->streams[i]`). -/
structure InStream where
  codecpar : CodecPar
  time_base : AVRational
deriving DecidableEq, Repr

/-- An output container stream created by `Encoder::init`. -/
structure OutStreamS where
  codecpar : CodecPar
  time_base : AVRational
deriving DecidableEq, Repr

/-- Result of the stream-mapping phase of `Encoder::init`: the output
streams (index i = output stream index i) and the stream map, `none` when
`copy_streams` is disabled (the `stream_map_` pointer stays `nullptr`). -/
structure ENState where
  out_streams : List OutStreamS
  stream_map : Option (List Int)
deriving DecidableEq, Repr

/-- The mapping loop of `Encoder::init` (`src/encoder.cpp` lines 155-194):
walk the input streams with their index `i`; the designated video stream
maps to the output video stream index; audio and subtitle streams get a
fresh output stream whose codec parameters are copied with the codec tag
cleared and whose time base is copied, and map to its index; every other
media type maps to the dropped sentinel `-1` (with a diagnostic) and
creates no output stream. -/
def map_streams (in_vidx : Nat) (out_vidx : Int) :
    Nat → List OutStreamS → List InStream → List OutStreamS × List Int
  | _, outs, [] => (outs, [])
  | i, outs, s :: rest =>
    if i = in_vidx then
      let r := map_streams in_vidx out_vidx (i + 1) outs rest
      (r.1, out_vidx :: r.2)
    else if s.codecpar.codec_type = MediaType.audio ∨ s.codecpar.codec_type = MediaType.subtitle then
      let out : OutStreamS :=
        { codecpar := { s.codecpar with codec_tag := 0 }, time_base := s.time_base }
      let r := map_streams in_vidx out_vidx (i + 1) (outs ++ [out]) rest
      (r.1, (outs.length : Int) :: r.2)
    else
      let r := map_streams in_vidx out_vidx (i + 1) outs rest
      (r.1, (-1 : Int) :: r.2)

/-- Embedding of the stream-creation part of `Encoder::init`
(`src/encoder.cpp` lines 56-62 and 144-195): the output video stream is
created first (index 0, `out_vstream_idx_ = 0`); when `copy_streams` is
enabled the stream map is allocated and filled by the mapping loop, and
otherwise `stream_map_` remains the constructor's `nullptr`. -/
def encoder_init_streams (copy_streams : Bool) (video_out : OutStreamS)
    (in_streams : List InStream) (in_vstream_idx : Nat) : ENState :=
  if copy_streams then
    let r := map_streams in_vstream_idx 0 0 [video_out] in_streams
    { out_streams := r.1, stream_map := some r.2 }
  else
    { out_streams := [video_out], stream_map := none }

/-! ## The tail of `process_video` (`src/libvideo2x.cpp` lines 454-473) -/

/-- The final return check of `process_video` (`src/libvideo2x.cpp` lines
467-472): a negative status other than `AVERROR_EOF` is returned, anything
else becomes 0. -/
def process_video_final_check (ret : Int) : Int :=
  if ret < 0 ∧ ret ≠ AVERROR_EOF then ret else 0

/-- The return path of `process_video` after `process_frames` returns
(`src/libvideo2x.cpp` lines 454-473): any negative processing status is
returned unchanged at once (lines 454-459); otherwise the trailer is
written and the final check runs. -/
def process_video_tail (ret : Int) : Int :=
  if ret < 0 then ret else process_video_final_check ret

/-! ## Filter stage (external capability, spec section 4.3)

Modelled from the spec: the filter accepts one decoded frame and returns
zero or one transformed frames; it may buffer internally (temporal
context), "no output yet" is not an error; `flush` appends every still
buffered frame in presentation order and is called once after decode EOF.
The model is a FIFO that holds back `delay` frames. -/

structure FilterS where
  delay : Nat
  buffered : List VFrame
deriving DecidableEq, Repr

/-- `Filter::process_frame`: push the input; emit the oldest buffered frame
once more than `delay` frames are held, else report "no output yet"
(status 0, no frame). -/
def Filter.process_frame (s : FilterS) (f : VFrame) : (Int × Option VFrame) × FilterS :=
  let buf := s.buffered ++ [f]
  if s.delay < buf.length then
    ((0, buf.head?), { s with buffered := buf.tail })
  else
    ((0, none), { s with buffered := buf })

/-- `Filter::flush`: hand back every internally buffered frame, in order. -/
def Filter.flush (s : FilterS) : (Int × List VFrame) × FilterS :=
  ((0, s.buffered), { s with buffered := [] })

/-! ## Decoder model (libavcodec collaborator)

Modelled from the spec: "send compressed unit, receive raw frame".  The
frames a packet decodes to are given by the behaviour function
`decode`; `avcodec_receive_frame` pops them until the buffer is starved,
which yields `AVERROR(EAGAIN)`. -/

/-! ## The control loop `process_frames` (`src/libvideo2x.cpp` lines 32-223)

The externally mutated `pause`/`abort` flags of the
`VideoProcessingContext` are modelled as schedules indexed by a poll
counter (`tick`): each flag read observes the schedule at the current tick
and advances it, and the sleep inside the pause wait also advances it.
Every observable action is recorded in a timestamped event trace.

The submission call of the loop is `Modelled from the spec:` the repository
calls a `write_frame` overload whose definition is not under `src/` (only
this caller is); per spec section 4.4 the loop submits each output frame
through the encode stage's `write_frame` "passing a monotonically
increasing frame sequence counter", embodied here by the `frame_idx`
counter passed to `Encoder.write_frame`. -/

inductive PEv where
  | pollAbort (b : Bool)
  | pollPause (b : Bool)
  | sleep
  | sendPacket
  | recvFrame
  | submitLoop
  | submitFlush
  | filterFlush
  | encoderFlush
deriving DecidableEq, Repr

/-- Static data of one `process_frames` run: configuration, collaborator
behaviour and the external controller's flag schedules. -/
structure PFConfig where
  copy_streams : Bool
  benchmark : Bool
  vstream_idx : Int
  in_stream_tbs : List AVRational
  decode : VPacket → List VFrame
  enc_time_base : AVRational
  enc_pix_fmt : Int
  out_vstream_idx : Nat
  pauseL : List Bool
  abortL : List Bool

/-- The `pause` flag observed at poll `t` (false once the schedule ends). -/
def pauseAt (cfg : PFConfig) (t : Nat) : Bool := cfg.pauseL.getD t false

/-- The `abort` flag observed at poll `t`.  The controller's only
operation on the flag is to set it (nothing in the source ever clears
it), so the flag latches: the schedule records at which polls a set has
fired, and a poll reads true once any set-point no later than it has
fired — in particular the observed flag is monotone (`abortAt_mono`). -/
def abortAt (cfg : PFConfig) (t : Nat) : Bool :=
  (cfg.abortL.take (t + 1)).any (fun b => b)

/-- Mutable state of one `process_frames` run: the
decoder/filter/encoder/muxer collaborator states, the `processed_frames`
counter of the `VideoProcessingContext`, the frame sequence counter, the
stream map pointer, the poll counter, the event trace, and a fault flag
recording a null `stream_map` dereference.  The packets still pending in
the input context are threaded separately through the read loop. -/
structure PFState where
  dec : List VFrame
  filt : FilterS
  enc : EncCodecState
  mux : MuxState
  stream_map : Option (List Int)
  processed_frames : Nat
  frame_idx : Int
  tick : Nat
  events : List (Nat × PEv)
  fault : Bool

/-- Record an event at the current tick and advance the tick. -/
def PFState.emit (st : PFState) (e : PEv) : PFState :=
  { st with events := st.events ++ [(st.tick, e)], tick := st.tick + 1 }

@[simp] theorem PFState.emit_dec (st : PFState) (e : PEv) : (st.emit e).dec = st.dec := rfl

@[simp] theorem PFState.emit_filt (st : PFState) (e : PEv) : (st.emit e).filt = st.filt := rfl

@[simp] theorem PFState.emit_enc (st : PFState) (e : PEv) : (st.emit e).enc = st.enc := rfl

@[simp] theorem PFState.emit_mux (st : PFState) (e : PEv) : (st.emit e).mux = st.mux := rfl

@[simp] theorem PFState.emit_map (st : PFState) (e : PEv) :
    (st.emit e).stream_map = st.stream_map := rfl

@[simp] theorem PFState.emit_processed (st : PFState) (e : PEv) :
    (st.emit e).processed_frames = st.processed_frames := rfl

@[simp] theorem PFState.emit_frame_idx (st : PFState) (e : PEv) :
    (st.emit e).frame_idx = st.frame_idx := rfl

@[simp] theorem PFState.emit_tick (st : PFState) (e : PEv) : (st.emit e).tick = st.tick + 1 := rfl

@[simp] theorem PFState.emit_events (st : PFState) (e : PEv) :
    (st.emit e).events = st.events ++ [(st.tick, e)] := rfl

@[simp] theorem PFState.emit_fault (st : PFState) (e : PEv) : (st.emit e).fault = st.fault := rfl

theorem pauseAt_true_lt {cfg : PFConfig} {t : Nat} (h : pauseAt cfg t = true) :
    t < cfg.pauseL.length := by
  by_contra hlt
  rw [pauseAt, List.getD_eq_default _ _ (Nat.le_of_not_lt hlt)] at h
  exact Bool.false_ne_true h

/-- The per-packet inner receive loop (`src/libvideo2x.cpp` lines 120-166):
while the `abort` flag is unset, poll `pause` — when paused, sleep one
polling interval and re-check; otherwise receive a decoded frame (breaking
on `AVERROR(EAGAIN)`/`AVERROR_EOF`), run it through the filter, and on a
real output frame submit it to the encode stage (skipped in benchmark
mode) and increment `processed_frames`. -/
def inner_loop (cfg : PFConfig) (st : PFState) : Int × PFState :=
  let a := abortAt cfg st.tick
  let st1 := st.emit (PEv.pollAbort a)
  if a then (0, st1)
  else
    let p := pauseAt cfg st1.tick
    let st2 := st1.emit (PEv.pollPause p)
    if hp : p then
      inner_loop cfg (st2.emit PEv.sleep)
    else
      match hd : st.dec with
      | [] => (0, st2.emit PEv.recvFrame)
      | f :: rest =>
        let st3 := ({ st2 with dec := rest }).emit PEv.recvFrame
        let fr := Filter.process_frame st3.filt f
        let st4 := { st3 with filt := fr.2 }
        if fr.1.1 < 0 ∧ fr.1.1 ≠ AVERROR_EAGAIN then (fr.1.1, st4)
        else
          match fr.1.2 with
          | none => inner_loop cfg st4
          | some pf =>
            if cfg.benchmark then
              inner_loop cfg { st4 with processed_frames := st4.processed_frames + 1 }
            else
              let st5 := st4.emit PEv.submitLoop
              let w := Encoder.write_frame cfg.enc_time_base cfg.enc_pix_fmt
                cfg.out_vstream_idx st5.enc st5.mux pf st5.frame_idx
              let st6 := { st5 with enc := w.2.1, mux := w.2.2, frame_idx := st5.frame_idx + 1 }
              if w.1 < 0 then (w.1, st6)
              else inner_loop cfg { st6 with processed_frames := st6.processed_frames + 1 }
termination_by (st.dec.length, cfg.pauseL.length - st.tick)
decreasing_by
  · have hp' : pauseAt cfg (st.tick + 1) = true := by
      simpa only [PFState.emit_tick] using hp
    have ht := pauseAt_true_lt hp'
    apply Prod.Lex.right
    simp only [PFState.emit_tick]
    omega
  · apply Prod.Lex.left
    simp only [PFState.emit_dec]
    simp only [hd, List.length_cons]
    omega
  · apply Prod.Lex.left
    simp only [PFState.emit_dec]
    simp only [hd, List.length_cons]
    omega
  · apply Prod.Lex.left
    simp only [PFState.emit_dec]
    simp only [hd, List.length_cons]
    omega

/-! ## Characterisation lemmas for the encode stage -/

theorem drain_g_pkts (tb tb' : AVRational) (vidx : Int) (l : List VPacket) (e : Int)
    (he : e = AVERROR_EAGAIN ∨ e = AVERROR_EOF) :
    drain_g tb tb' vidx (l.map (fun p => RecvStep.pkt p 0) ++ [RecvStep.err e]) =
      (0, l.map (rescale_tag tb tb' vidx)) := by
  induction l with
  | nil => rcases he with h | h <;> simp [drain_g, h]
  | cons p rest ih => simp [drain_g, ih]

theorem drain_g_enc_trace (tb tb' : AVRational) (vidx : Int) (s : EncCodecState) :
    drain_g tb tb' vidx (enc_trace s) = (0, s.buffered.map (rescale_tag tb tb' vidx)) := by
  rw [enc_trace]
  apply drain_g_pkts
  by_cases h : s.draining <;> simp [h]

/-- Full behaviour of `Encoder.write_frame` on a non-draining encoder:
status 0, the encoder buffer is emptied, and the packet of the submitted
frame (pts defaulted to `frame_idx` when unset) is rescaled, tagged and
appended behind any previously buffered packets. -/
theorem write_frame_spec (tb : AVRational) (pix : Int) (vidx : Nat)
    (enc : EncCodecState) (mux : MuxState) (f : VFrame) (i : Int)
    (h : enc.draining = false) :
    Encoder.write_frame tb pix vidx enc mux f i =
      (0, { buffered := [], draining := false },
        { mux with written := mux.written ++
            ((enc.buffered ++ [({ pts := if f.pts ≤ 0 then i else f.pts
                                  dts := if f.pts ≤ 0 then i else f.pts
                                  stream_index := 0 } : VPacket)]).map
              (rescale_tag tb (mux.streams.getD vidx ⟨1, 1⟩) vidx)) }) := by
  rw [Encoder.write_frame]
  by_cases hp : f.pts ≤ 0 <;>
    by_cases hf : f.format ≠ pix <;>
      simp [avcodec_send_frame, h, hp, hf, drain_g_enc_trace]

/-- `Encoder.write_frame` on a draining encoder: the send fails with
`AVERROR_EOF` and nothing is written. -/
theorem write_frame_draining (tb : AVRational) (pix : Int) (vidx : Nat)
    (enc : EncCodecState) (mux : MuxState) (f : VFrame) (i : Int)
    (h : enc.draining = true) :
    Encoder.write_frame tb pix vidx enc mux f i = (AVERROR_EOF, enc, mux) := by
  rw [Encoder.write_frame]
  by_cases hp : f.pts ≤ 0 <;>
    by_cases hf : f.format ≠ pix <;>
      simp [avcodec_send_frame, h, hp, hf, AVERROR_EOF]

/-- `Encoder.flush` on a non-draining encoder: status 0, the buffer is
drained to the muxer and the encoder enters draining mode. -/
theorem flush_spec (tb : AVRational) (vidx : Nat) (enc : EncCodecState) (mux : MuxState)
    (h : enc.draining = false) :
    Encoder.flush tb vidx enc mux =
      (0, { buffered := [], draining := true },
        { mux with written := mux.written ++
            (enc.buffered.map (rescale_tag tb (mux.streams.getD vidx ⟨1, 1⟩) vidx)) }) := by
  rw [Encoder.flush]
  simp [avcodec_send_frame, h, drain_g_enc_trace]

/-- A second `Encoder.flush`: the `NULL` send returns `AVERROR_EOF` and no
further packet is written. -/
theorem flush_draining (tb : AVRational) (vidx : Nat) (enc : EncCodecState) (mux : MuxState)
    (h : enc.draining = true) :
    Encoder.flush tb vidx enc mux = (AVERROR_EOF, enc, mux) := by
  rw [Encoder.flush]
  simp [avcodec_send_frame, h, AVERROR_EOF]

theorem write_frame_preserves (tb : AVRational) (pix : Int) (vidx : Nat)
    (enc : EncCodecState) (mux : MuxState) (f : VFrame) (i : Int) :
    (Encoder.write_frame tb pix vidx enc mux f i).2.1.draining = enc.draining ∧
    (Encoder.write_frame tb pix vidx enc mux f i).2.2.streams = mux.streams := by
  by_cases h : enc.draining
  · simp [write_frame_draining tb pix vidx enc mux f i h]
  · have h' : enc.draining = false := by
      cases hd : enc.draining
      · rfl
      · exact absurd hd h
    simp [write_frame_spec tb pix vidx enc mux f i h', h']

/-! ## Named successor states of the inner receive loop -/

/-- State after a paused iteration of the inner loop: abort polled false,
pause polled true, one fixed sleep. -/
def stepPause (st : PFState) : PFState :=
  ((st.emit (PEv.pollAbort false)).emit (PEv.pollPause true)).emit PEv.sleep

/-- State after polling abort false, pause false and receiving one decoded
frame. -/
def stepRecv (st : PFState) (rest : List VFrame) : PFState :=
  ({ (st.emit (PEv.pollAbort false)).emit (PEv.pollPause false) with dec := rest }).emit
    PEv.recvFrame

/-- State after an iteration whose filter call buffered the frame ("no
output yet"). -/
def stepNone (st : PFState) (rest : List VFrame) (F' : FilterS) : PFState :=
  { stepRecv st rest with filt := F' }

/-- State after a benchmark-mode iteration: the submission is skipped but
`processed_frames` is incremented. -/
def stepBench (st : PFState) (rest : List VFrame) (F' : FilterS) : PFState :=
  { stepRecv st rest with filt := F', processed_frames := st.processed_frames + 1 }

/-- State after an iteration that submitted the filter output to the encode
stage successfully. -/
def stepWrite (st : PFState) (rest : List VFrame) (F' : FilterS)
    (enc' : EncCodecState) (mux' : MuxState) : PFState :=
  { (stepNone st rest F').emit PEv.submitLoop with
    enc := enc', mux := mux', frame_idx := st.frame_idx + 1,
    processed_frames := st.processed_frames + 1 }

/-- State after an iteration whose submission failed: the loop returns the
negative status without incrementing `processed_frames`. -/
def stepWriteErr (st : PFState) (rest : List VFrame) (F' : FilterS)
    (enc' : EncCodecState) (mux' : MuxState) : PFState :=
  { (stepNone st rest F').emit PEv.submitLoop with
    enc := enc', mux := mux', frame_idx := st.frame_idx + 1 }

/-! ## Step lemmas for the inner receive loop -/

theorem inner_loop_eq_abort (cfg : PFConfig) (st : PFState)
    (ha : abortAt cfg st.tick = true) :
    inner_loop cfg st = (0, st.emit (PEv.pollAbort true)) := by
  rw [inner_loop]
  simp [ha]

theorem inner_loop_eq_pause (cfg : PFConfig) (st : PFState)
    (ha : abortAt cfg st.tick = false) (hp : pauseAt cfg (st.tick + 1) = true) :
    inner_loop cfg st = inner_loop cfg (stepPause st) := by
  rw [inner_loop]
  simp [ha, hp, stepPause]

theorem inner_loop_eq_nil (cfg : PFConfig) (st : PFState)
    (ha : abortAt cfg st.tick = false) (hp : pauseAt cfg (st.tick + 1) = false)
    (hd : st.dec = []) :
    inner_loop cfg st =
      (0, ((st.emit (PEv.pollAbort false)).emit (PEv.pollPause false)).emit PEv.recvFrame) := by
  rw [inner_loop]
  simp [ha, hp]
  split
  · simp
  · rename_i heq
    rw [hd] at heq
    cases heq

theorem inner_loop_eq_none (cfg : PFConfig) (st : PFState) (f : VFrame) (rest : List VFrame)
    (F' : FilterS)
    (ha : abortAt cfg st.tick = false) (hp : pauseAt cfg (st.tick + 1) = false)
    (hd : st.dec = f :: rest)
    (hf : Filter.process_frame st.filt f = ((0, none), F')) :
    inner_loop cfg st = inner_loop cfg (stepNone st rest F') := by
  rw [inner_loop]
  simp [ha, hp]
  split
  · rename_i heq
    rw [hd] at heq
    cases heq
  · rename_i f' rest' heq
    rw [hd] at heq
    injection heq with h1 h2
    subst h1
    subst h2
    simp [hf, stepNone, stepRecv]

theorem inner_loop_eq_bench (cfg : PFConfig) (st : PFState) (f : VFrame) (rest : List VFrame)
    (pf : VFrame) (F' : FilterS)
    (ha : abortAt cfg st.tick = false) (hp : pauseAt cfg (st.tick + 1) = false)
    (hd : st.dec = f :: rest)
    (hf : Filter.process_frame st.filt f = ((0, some pf), F'))
    (hb : cfg.benchmark = true) :
    inner_loop cfg st = inner_loop cfg (stepBench st rest F') := by
  rw [inner_loop]
  simp [ha, hp]
  split
  · rename_i heq
    rw [hd] at heq
    cases heq
  · rename_i f' rest' heq
    rw [hd] at heq
    injection heq with h1 h2
    subst h1
    subst h2
    simp [hf, hb, stepBench, stepRecv]

theorem inner_loop_eq_write (cfg : PFConfig) (st : PFState) (f : VFrame) (rest : List VFrame)
    (pf : VFrame) (F' : FilterS) (enc' : EncCodecState) (mux' : MuxState)
    (ha : abortAt cfg st.tick = false) (hp : pauseAt cfg (st.tick + 1) = false)
    (hd : st.dec = f :: rest)
    (hf : Filter.process_frame st.filt f = ((0, some pf), F'))
    (hb : cfg.benchmark = false)
    (hw : Encoder.write_frame cfg.enc_time_base cfg.enc_pix_fmt cfg.out_vstream_idx
      st.enc st.mux pf st.frame_idx = (0, enc', mux')) :
    inner_loop cfg st = inner_loop cfg (stepWrite st rest F' enc' mux') := by
  rw [inner_loop]
  simp [ha, hp]
  split
  · rename_i heq
    rw [hd] at heq
    cases heq
  · rename_i f' rest' heq
    rw [hd] at heq
    injection heq with h1 h2
    subst h1
    subst h2
    simp [hf, hb, hw, stepWrite, stepNone, stepRecv]

theorem bool_eq_false {b : Bool} (h : ¬b = true) : b = false := by
  cases b
  · rfl
  · exact absurd rfl h

theorem inner_loop_eq_write_err (cfg : PFConfig) (st : PFState) (f : VFrame)
    (rest : List VFrame) (pf : VFrame) (F' : FilterS) (e : Int)
    (enc' : EncCodecState) (mux' : MuxState)
    (ha : abortAt cfg st.tick = false) (hp : pauseAt cfg (st.tick + 1) = false)
    (hd : st.dec = f :: rest)
    (hf : Filter.process_frame st.filt f = ((0, some pf), F'))
    (hb : cfg.benchmark = false)
    (hw : Encoder.write_frame cfg.enc_time_base cfg.enc_pix_fmt cfg.out_vstream_idx
      st.enc st.mux pf st.frame_idx = (e, enc', mux'))
    (he : e < 0) :
    inner_loop cfg st = (e, stepWriteErr st rest F' enc' mux') := by
  rw [inner_loop]
  simp [ha, hp]
  split
  · rename_i heq
    rw [hd] at heq
    cases heq
  · rename_i f' rest' heq
    rw [hd] at heq
    injection heq with h1 h2
    subst h1
    subst h2
    simp [hf, hb, hw, he, stepWriteErr, stepNone, stepRecv]

/-- The model filter never fails: `process_frame` always reports status 0. -/
theorem filter_status (s : FilterS) (f : VFrame) : (Filter.process_frame s f).1.1 = 0 := by
  rw [Filter.process_frame]
  by_cases h : s.delay < s.buffered.length + 1 <;> simp [h]

/-- The model encode stage returns either 0 or `AVERROR_EOF` from a
submission. -/
theorem write_frame_status (tb : AVRational) (pix : Int) (vidx : Nat)
    (enc : EncCodecState) (mux : MuxState) (f : VFrame) (i : Int) :
    (Encoder.write_frame tb pix vidx enc mux f i).1 = 0 ∨
    (Encoder.write_frame tb pix vidx enc mux f i).1 = AVERROR_EOF := by
  by_cases h : enc.draining
  · right
    simp [write_frame_draining tb pix vidx enc mux f i h]
  · left
    simp [write_frame_spec tb pix vidx enc mux f i (bool_eq_false h)]

/-! ## A structured induction principle for the inner loop -/

/-- Termination measure of the inner loop: decoded frames still buffered,
then remaining schedule ticks the pause wait can consume. -/
def ilM (cfg : PFConfig) (st : PFState) : Nat :=
  st.dec.length * (cfg.pauseL.length + 1) + (cfg.pauseL.length - st.tick)

theorem ilM_step_lt (r L s s' : Nat) (h : s' ≤ L) :
    r * (L + 1) + s' < (r + 1) * (L + 1) + s := by
  have h1 : r * (L + 1) + s' < r * (L + 1) + (L + 1) :=
    Nat.add_lt_add_left (Nat.lt_succ_of_le h) _
  have h2 : r * (L + 1) + (L + 1) = (r + 1) * (L + 1) := (Nat.succ_mul r (L + 1)).symm
  exact lt_of_lt_of_le (h2 ▸ h1) (Nat.le_add_right _ _)

theorem ilM_pause_lt (cfg : PFConfig) (st : PFState)
    (hp : pauseAt cfg (st.tick + 1) = true) :
    ilM cfg (stepPause st) < ilM cfg st := by
  have ht := pauseAt_true_lt hp
  rw [ilM, ilM, stepPause]
  simp only [PFState.emit_dec, PFState.emit_tick]
  exact Nat.add_lt_add_left (by omega) _

theorem ilM_dec_lt (cfg : PFConfig) (st next : PFState) (f : VFrame) (rest : List VFrame)
    (hd : st.dec = f :: rest) (hnext : next.dec = rest) :
    ilM cfg next < ilM cfg st := by
  rw [ilM, ilM, hd, hnext, List.length_cons]
  exact ilM_step_lt _ _ _ _ (Nat.sub_le _ _)

theorem stepNone_dec (st : PFState) (rest : List VFrame) (F' : FilterS) :
    (stepNone st rest F').dec = rest := rfl

theorem stepBench_dec (st : PFState) (rest : List VFrame) (F' : FilterS) :
    (stepBench st rest F').dec = rest := rfl

theorem stepWrite_dec (st : PFState) (rest : List VFrame) (F' : FilterS)
    (enc' : EncCodecState) (mux' : MuxState) :
    (stepWrite st rest F' enc' mux').dec = rest := rfl

/-- Case-structured induction over the iterations of the inner receive
loop: a property of states closed under each kind of iteration holds of
every state. -/
theorem inner_loop_rec (cfg : PFConfig) (motive : PFState → Prop)
    (case_abort : ∀ st, abortAt cfg st.tick = true → motive st)
    (case_pause : ∀ st, abortAt cfg st.tick = false → pauseAt cfg (st.tick + 1) = true →
      motive (stepPause st) → motive st)
    (case_nil : ∀ st, abortAt cfg st.tick = false → pauseAt cfg (st.tick + 1) = false →
      st.dec = [] → motive st)
    (case_none : ∀ st f rest F', abortAt cfg st.tick = false →
      pauseAt cfg (st.tick + 1) = false → st.dec = f :: rest →
      Filter.process_frame st.filt f = ((0, none), F') →
      motive (stepNone st rest F') → motive st)
    (case_bench : ∀ st f rest pf F', abortAt cfg st.tick = false →
      pauseAt cfg (st.tick + 1) = false → st.dec = f :: rest →
      Filter.process_frame st.filt f = ((0, some pf), F') → cfg.benchmark = true →
      motive (stepBench st rest F') → motive st)
    (case_write : ∀ st f rest pf F' enc' mux', abortAt cfg st.tick = false →
      pauseAt cfg (st.tick + 1) = false → st.dec = f :: rest →
      Filter.process_frame st.filt f = ((0, some pf), F') → cfg.benchmark = false →
      Encoder.write_frame cfg.enc_time_base cfg.enc_pix_fmt cfg.out_vstream_idx
        st.enc st.mux pf st.frame_idx = (0, enc', mux') →
      motive (stepWrite st rest F' enc' mux') → motive st)
    (case_write_err : ∀ st f rest pf F' e enc' mux', abortAt cfg st.tick = false →
      pauseAt cfg (st.tick + 1) = false → st.dec = f :: rest →
      Filter.process_frame st.filt f = ((0, some pf), F') → cfg.benchmark = false →
      Encoder.write_frame cfg.enc_time_base cfg.enc_pix_fmt cfg.out_vstream_idx
        st.enc st.mux pf st.frame_idx = (e, enc', mux') → e < 0 → motive st) :
    ∀ st, motive st := by
  suffices H : ∀ n st, ilM cfg st = n → motive st by
    intro st
    exact H _ st rfl
  intro n
  induction n using Nat.strong_induction_on with
  | _ n IH =>
    intro st hm
    by_cases ha : abortAt cfg st.tick = true
    · exact case_abort st ha
    · have ha' : abortAt cfg st.tick = false := bool_eq_false ha
      by_cases hp : pauseAt cfg (st.tick + 1) = true
      · exact case_pause st ha' hp
          (IH _ (hm ▸ ilM_pause_lt cfg st hp) _ rfl)
      · have hp' : pauseAt cfg (st.tick + 1) = false := bool_eq_false hp
        cases hd : st.dec with
        | nil => exact case_nil st ha' hp' hd
        | cons f rest =>
          rcases hfr : Filter.process_frame st.filt f with ⟨⟨e, out⟩, F'⟩
          have he0 : e = 0 := by
            have hst := filter_status st.filt f
            rw [hfr] at hst
            simpa using hst
          subst he0
          cases out with
          | none =>
            exact case_none st f rest F' ha' hp' hd hfr
              (IH _ (hm ▸ ilM_dec_lt cfg st _ f rest hd (stepNone_dec st rest F')) _ rfl)
          | some pf =>
            by_cases hb : cfg.benchmark = true
            · exact case_bench st f rest pf F' ha' hp' hd hfr hb
                (IH _ (hm ▸ ilM_dec_lt cfg st _ f rest hd (stepBench_dec st rest F')) _ rfl)
            · have hb' : cfg.benchmark = false := bool_eq_false hb
              rcases hw : Encoder.write_frame cfg.enc_time_base cfg.enc_pix_fmt
                cfg.out_vstream_idx st.enc st.mux pf st.frame_idx with ⟨e, enc', mux'⟩
              by_cases hneg : e < 0
              · exact case_write_err st f rest pf F' e enc' mux' ha' hp' hd hfr hb' hw hneg
              · have he0 : e = 0 := by
                  rcases write_frame_status cfg.enc_time_base cfg.enc_pix_fmt
                    cfg.out_vstream_idx st.enc st.mux pf st.frame_idx with h0 | hEOF
                  · rw [hw] at h0
                    simpa using h0
                  · rw [hw] at hEOF
                    simp only at hEOF
                    rw [AVERROR_EOF] at hEOF
                    omega
                subst he0
                exact case_write st f rest pf F' enc' mux' ha' hp' hd hfr hb' hw
                  (IH _ (hm ▸ ilM_dec_lt cfg st _ f rest hd (stepWrite_dec st rest F' enc' mux')) _ rfl)

/-- The model filter never changes its configured delay. -/
theorem filter_delay (s : FilterS) (f : VFrame) :
    (Filter.process_frame s f).2.delay = s.delay := by
  rw [Filter.process_frame]
  by_cases h : s.delay < s.buffered.length + 1 <;> simp [h]

/-- The inner receive loop never touches the stream map, the fault flag,
the encoder's draining mode, the output stream table, or the filter's
configured delay. -/
theorem inner_loop_stable (cfg : PFConfig) (st : PFState) :
    (inner_loop cfg st).2.stream_map = st.stream_map ∧
    (inner_loop cfg st).2.fault = st.fault ∧
    (inner_loop cfg st).2.enc.draining = st.enc.draining ∧
    (inner_loop cfg st).2.mux.streams = st.mux.streams ∧
    (inner_loop cfg st).2.filt.delay = st.filt.delay := by
  refine inner_loop_rec cfg (fun s =>
      (inner_loop cfg s).2.stream_map = s.stream_map ∧
      (inner_loop cfg s).2.fault = s.fault ∧
      (inner_loop cfg s).2.enc.draining = s.enc.draining ∧
      (inner_loop cfg s).2.mux.streams = s.mux.streams ∧
      (inner_loop cfg s).2.filt.delay = s.filt.delay)
    ?_ ?_ ?_ ?_ ?_ ?_ ?_ st
  · intro s ha
    rw [inner_loop_eq_abort cfg s ha]
    simp
  · intro s ha hp IH
    rw [inner_loop_eq_pause cfg s ha hp]
    obtain ⟨i2, i3, i4, i5, i6⟩ := IH
    exact ⟨i2.trans (by simp [stepPause]), i3.trans (by simp [stepPause]),
      i4.trans (by simp [stepPause]), i5.trans (by simp [stepPause]),
      i6.trans (by simp [stepPause])⟩
  · intro s ha hp hd
    rw [inner_loop_eq_nil cfg s ha hp hd]
    simp
  · intro s f rest F' ha hp hd hf IH
    rw [inner_loop_eq_none cfg s f rest F' ha hp hd hf]
    have hdel := filter_delay s.filt f
    rw [hf] at hdel
    obtain ⟨i2, i3, i4, i5, i6⟩ := IH
    exact ⟨i2.trans (by simp [stepNone, stepRecv]), i3.trans (by simp [stepNone, stepRecv]),
      i4.trans (by simp [stepNone, stepRecv]), i5.trans (by simp [stepNone, stepRecv]),
      i6.trans (by simp [stepNone, stepRecv]; exact hdel)⟩
  · intro s f rest pf F' ha hp hd hf hb IH
    rw [inner_loop_eq_bench cfg s f rest pf F' ha hp hd hf hb]
    have hdel := filter_delay s.filt f
    rw [hf] at hdel
    obtain ⟨i2, i3, i4, i5, i6⟩ := IH
    exact ⟨i2.trans (by simp [stepBench, stepRecv]), i3.trans (by simp [stepBench, stepRecv]),
      i4.trans (by simp [stepBench, stepRecv]), i5.trans (by simp [stepBench, stepRecv]),
      i6.trans (by simp [stepBench, stepRecv]; exact hdel)⟩
  · intro s f rest pf F' enc' mux' ha hp hd hf hb hw IH
    rw [inner_loop_eq_write cfg s f rest pf F' enc' mux' ha hp hd hf hb hw]
    have hdel := filter_delay s.filt f
    rw [hf] at hdel
    have hpres := write_frame_preserves cfg.enc_time_base cfg.enc_pix_fmt
      cfg.out_vstream_idx s.enc s.mux pf s.frame_idx
    rw [hw] at hpres
    obtain ⟨i2, i3, i4, i5, i6⟩ := IH
    exact ⟨i2.trans (by simp [stepWrite, stepNone, stepRecv]),
      i3.trans (by simp [stepWrite, stepNone, stepRecv]),
      i4.trans (by simp [stepWrite, stepNone, stepRecv]; exact hpres.1),
      i5.trans (by simp [stepWrite, stepNone, stepRecv]; exact hpres.2),
      i6.trans (by simp [stepWrite, stepNone, stepRecv]; exact hdel)⟩
  · intro s f rest pf F' e enc' mux' ha hp hd hf hb hw he
    rw [inner_loop_eq_write_err cfg s f rest pf F' e enc' mux' ha hp hd hf hb hw he]
    have hdel := filter_delay s.filt f
    rw [hf] at hdel
    have hpres := write_frame_preserves cfg.enc_time_base cfg.enc_pix_fmt
      cfg.out_vstream_idx s.enc s.mux pf s.frame_idx
    rw [hw] at hpres
    refine ⟨by simp [stepWriteErr, stepNone, stepRecv],
      by simp [stepWriteErr, stepNone, stepRecv],
      by simp [stepWriteErr, stepNone, stepRecv]; exact hpres.1,
      by simp [stepWriteErr, stepNone, stepRecv]; exact hpres.2,
      by simp [stepWriteErr, stepNone, stepRecv]; exact hdel⟩

/-! ## The outer read loop and the flush sequence -/

/-- The outer read loop of `process_frames` (`src/libvideo2x.cpp` lines
97-185): while the `abort` flag is unset, read the next packet from the
input context (end of input = `AVERROR_EOF`, which breaks the loop); a
packet of the designated video stream is sent to the decoder and drained
through the inner receive loop; with `copy_streams` enabled, a packet of a
mapped stream (`stream_map[i] >= 0`, evaluated only under the
short-circuit conjunction — a null map here is a fault) is rescaled from
the input stream's time base to the mapped output stream's time base,
retagged and written interleaved; any other packet is discarded. -/
def main_loop (cfg : PFConfig) : List VPacket → PFState → Int × PFState
  | input, st =>
    let a := abortAt cfg st.tick
    let st1 := st.emit (PEv.pollAbort a)
    if a then (0, st1)
    else
      match input with
      | [] => (0, st1)
      | pkt :: rest =>
        if pkt.stream_index = cfg.vstream_idx then
          let st3 := st1.emit PEv.sendPacket
          let st4 := { st3 with dec := st3.dec ++ cfg.decode pkt }
          let r := inner_loop cfg st4
          if r.1 < 0 then (r.1, r.2)
          else main_loop cfg rest r.2
        else if cfg.copy_streams then
          match st1.stream_map with
          | none => (AVERROR_UNKNOWN, { st1 with fault := true })
          | some m =>
            let oidx := m.getD pkt.stream_index.toNat (-1)
            if 0 ≤ oidx then
              let in_tb := cfg.in_stream_tbs.getD pkt.stream_index.toNat ⟨1, 1⟩
              let out_tb := st1.mux.streams.getD oidx.toNat ⟨1, 1⟩
              let q : VPacket := { pts := av_rescale_q pkt.pts in_tb out_tb
                                   dts := av_rescale_q pkt.dts in_tb out_tb
                                   stream_index := oidx }
              main_loop cfg rest
                { st1 with mux := { st1.mux with written := st1.mux.written ++ [q] } }
            else main_loop cfg rest st1
        else main_loop cfg rest st1

/-- The flushed-frame loop of `process_frames` (`src/libvideo2x.cpp` lines
196-210): every frame the filter handed back at EOF is submitted through
the encode stage (in every mode — the loop has no benchmark guard),
`processed_frames` is incremented per frame, and a negative submission
status returns at once. -/
def write_flushed (cfg : PFConfig) : PFState → List VFrame → Int × PFState
  | st, [] => (0, st)
  | st, f :: rest =>
    let st1 := st.emit PEv.submitFlush
    let w := Encoder.write_frame cfg.enc_time_base cfg.enc_pix_fmt cfg.out_vstream_idx
      st1.enc st1.mux f st1.frame_idx
    let st2 := { st1 with enc := w.2.1, mux := w.2.2, frame_idx := st1.frame_idx + 1 }
    if w.1 < 0 then (w.1, st2)
    else write_flushed cfg { st2 with processed_frames := st2.processed_frames + 1 } rest

/-- The flush sequence at the end of `process_frames` (`src/libvideo2x.cpp`
lines 187-219): flush the filter (propagating a negative status), submit
every flushed frame, then flush the encoder (propagating its status). -/
def flush_tail (cfg : PFConfig) (st : PFState) : Int × PFState :=
  let fr := Filter.flush st.filt
  let st1 := ({ st with filt := fr.2 }).emit PEv.filterFlush
  if fr.1.1 < 0 then (fr.1.1, st1)
  else
    let w := write_flushed cfg st1 fr.1.2
    if w.1 < 0 then (w.1, w.2)
    else
      let st2 := w.2.emit PEv.encoderFlush
      let e := Encoder.flush cfg.enc_time_base cfg.out_vstream_idx st2.enc st2.mux
      (e.1, { st2 with enc := e.2.1, mux := e.2.2 })

/-- Embedding of `process_frames` (`src/libvideo2x.cpp` lines 32-223): run
the read loop over the pending input; a negative status unwinds at once;
otherwise (end of input or abort) run the filter flush, the flushed-frame
submissions and the encoder flush. -/
def process_frames (cfg : PFConfig) (input : List VPacket) (st : PFState) : Int × PFState :=
  let r := main_loop cfg input st
  if r.1 < 0 then (r.1, r.2)
  else flush_tail cfg r.2

/-! ## Step lemmas for the outer read loop -/

/-- State after reading a video packet and sending it to the decoder. -/
def mainSend (cfg : PFConfig) (st : PFState) (pkt : VPacket) : PFState :=
  { (st.emit (PEv.pollAbort false)).emit PEv.sendPacket with
    dec := st.dec ++ cfg.decode pkt }

/-- The rescaled, retagged copy of a passthrough packet. -/
def passPkt (cfg : PFConfig) (st : PFState) (m : List Int) (pkt : VPacket) : VPacket :=
  { pts := av_rescale_q pkt.pts (cfg.in_stream_tbs.getD pkt.stream_index.toNat ⟨1, 1⟩)
      (st.mux.streams.getD (m.getD pkt.stream_index.toNat (-1)).toNat ⟨1, 1⟩)
    dts := av_rescale_q pkt.dts (cfg.in_stream_tbs.getD pkt.stream_index.toNat ⟨1, 1⟩)
      (st.mux.streams.getD (m.getD pkt.stream_index.toNat (-1)).toNat ⟨1, 1⟩)
    stream_index := m.getD pkt.stream_index.toNat (-1) }

/-- State after writing a passthrough packet interleaved. -/
def mainPass (st : PFState) (q : VPacket) : PFState :=
  { st.emit (PEv.pollAbort false) with
    mux := { st.mux with written := st.mux.written ++ [q] } }

theorem main_loop_eq_abort (cfg : PFConfig) (input : List VPacket) (st : PFState)
    (ha : abortAt cfg st.tick = true) :
    main_loop cfg input st = (0, st.emit (PEv.pollAbort true)) := by
  rw [main_loop.eq_def]
  cases input <;> simp [ha]

theorem main_loop_eq_nil (cfg : PFConfig) (st : PFState)
    (ha : abortAt cfg st.tick = false) :
    main_loop cfg [] st = (0, st.emit (PEv.pollAbort false)) := by
  rw [main_loop.eq_def]
  simp [ha]

theorem main_loop_eq_video_err (cfg : PFConfig) (pkt : VPacket) (rest : List VPacket)
    (st : PFState) (ha : abortAt cfg st.tick = false)
    (hv : pkt.stream_index = cfg.vstream_idx)
    (he : (inner_loop cfg (mainSend cfg st pkt)).1 < 0) :
    main_loop cfg (pkt :: rest) st = inner_loop cfg (mainSend cfg st pkt) := by
  simp [mainSend] at he
  rw [main_loop.eq_def]
  simp [ha, hv, mainSend, he]

theorem main_loop_eq_video (cfg : PFConfig) (pkt : VPacket) (rest : List VPacket)
    (st : PFState) (ha : abortAt cfg st.tick = false)
    (hv : pkt.stream_index = cfg.vstream_idx)
    (he : ¬(inner_loop cfg (mainSend cfg st pkt)).1 < 0) :
    main_loop cfg (pkt :: rest) st =
      main_loop cfg rest (inner_loop cfg (mainSend cfg st pkt)).2 := by
  simp [mainSend] at he
  rw [main_loop.eq_def]
  simp [ha, hv, mainSend, he]

theorem main_loop_eq_null_map (cfg : PFConfig) (pkt : VPacket) (rest : List VPacket)
    (st : PFState) (ha : abortAt cfg st.tick = false)
    (hv : pkt.stream_index ≠ cfg.vstream_idx)
    (hc : cfg.copy_streams = true) (hm : st.stream_map = none) :
    main_loop cfg (pkt :: rest) st =
      (AVERROR_UNKNOWN, { st.emit (PEv.pollAbort false) with fault := true }) := by
  rw [main_loop.eq_def]
  simp [ha, hv, hc, hm]

theorem main_loop_eq_pass (cfg : PFConfig) (pkt : VPacket) (rest : List VPacket)
    (st : PFState) (m : List Int) (ha : abortAt cfg st.tick = false)
    (hv : pkt.stream_index ≠ cfg.vstream_idx)
    (hc : cfg.copy_streams = true) (hm : st.stream_map = some m)
    (ho : 0 ≤ m.getD pkt.stream_index.toNat (-1)) :
    main_loop cfg (pkt :: rest) st =
      main_loop cfg rest (mainPass st (passPkt cfg st m pkt)) := by
  have ho' : ¬m.getD pkt.stream_index.toNat (-1) < 0 := Int.not_lt.mpr ho
  simp only [List.getD_eq_getElem?_getD] at ho'
  rw [main_loop.eq_def]
  simp [ha, hv, hc, hm, ho', mainPass, passPkt]

theorem main_loop_eq_drop_unmapped (cfg : PFConfig) (pkt : VPacket) (rest : List VPacket)
    (st : PFState) (m : List Int) (ha : abortAt cfg st.tick = false)
    (hv : pkt.stream_index ≠ cfg.vstream_idx)
    (hc : cfg.copy_streams = true) (hm : st.stream_map = some m)
    (ho : ¬0 ≤ m.getD pkt.stream_index.toNat (-1)) :
    main_loop cfg (pkt :: rest) st =
      main_loop cfg rest (st.emit (PEv.pollAbort false)) := by
  have ho' : m.getD pkt.stream_index.toNat (-1) < 0 := Int.not_le.mp ho
  simp only [List.getD_eq_getElem?_getD] at ho'
  rw [main_loop.eq_def]
  simp [ha, hv, hc, hm, ho']

theorem main_loop_eq_drop (cfg : PFConfig) (pkt : VPacket) (rest : List VPacket)
    (st : PFState) (ha : abortAt cfg st.tick = false)
    (hv : pkt.stream_index ≠ cfg.vstream_idx)
    (hc : cfg.copy_streams = false) :
    main_loop cfg (pkt :: rest) st =
      main_loop cfg rest (st.emit (PEv.pollAbort false)) := by
  rw [main_loop.eq_def]
  simp [ha, hv, hc]

/-- Case-structured induction over the iterations of the outer read loop. -/
theorem main_loop_rec (cfg : PFConfig) (motive : List VPacket → PFState → Prop)
    (h_abort : ∀ input st, abortAt cfg st.tick = true → motive input st)
    (h_nil : ∀ st, abortAt cfg st.tick = false → motive [] st)
    (h_video_err : ∀ pkt rest st, abortAt cfg st.tick = false →
      pkt.stream_index = cfg.vstream_idx →
      (inner_loop cfg (mainSend cfg st pkt)).1 < 0 → motive (pkt :: rest) st)
    (h_video : ∀ pkt rest st, abortAt cfg st.tick = false →
      pkt.stream_index = cfg.vstream_idx →
      ¬(inner_loop cfg (mainSend cfg st pkt)).1 < 0 →
      motive rest (inner_loop cfg (mainSend cfg st pkt)).2 → motive (pkt :: rest) st)
    (h_null : ∀ pkt rest st, abortAt cfg st.tick = false →
      pkt.stream_index ≠ cfg.vstream_idx → cfg.copy_streams = true →
      st.stream_map = none → motive (pkt :: rest) st)
    (h_pass : ∀ pkt rest st m, abortAt cfg st.tick = false →
      pkt.stream_index ≠ cfg.vstream_idx → cfg.copy_streams = true →
      st.stream_map = some m → 0 ≤ m.getD pkt.stream_index.toNat (-1) →
      motive rest (mainPass st (passPkt cfg st m pkt)) → motive (pkt :: rest) st)
    (h_unmapped : ∀ pkt rest st m, abortAt cfg st.tick = false →
      pkt.stream_index ≠ cfg.vstream_idx → cfg.copy_streams = true →
      st.stream_map = some m → ¬0 ≤ m.getD pkt.stream_index.toNat (-1) →
      motive rest (st.emit (PEv.pollAbort false)) → motive (pkt :: rest) st)
    (h_drop : ∀ pkt rest st, abortAt cfg st.tick = false →
      pkt.stream_index ≠ cfg.vstream_idx → cfg.copy_streams = false →
      motive rest (st.emit (PEv.pollAbort false)) → motive (pkt :: rest) st) :
    ∀ input st, motive input st := by
  intro input
  induction input with
  | nil =>
    intro st
    by_cases ha : abortAt cfg st.tick = true
    · exact h_abort [] st ha
    · exact h_nil st (bool_eq_false ha)
  | cons pkt rest ih =>
    intro st
    by_cases ha : abortAt cfg st.tick = true
    · exact h_abort (pkt :: rest) st ha
    · have ha' := bool_eq_false ha
      by_cases hv : pkt.stream_index = cfg.vstream_idx
      · by_cases he : (inner_loop cfg (mainSend cfg st pkt)).1 < 0
        · exact h_video_err pkt rest st ha' hv he
        · exact h_video pkt rest st ha' hv he (ih _)
      · by_cases hc : cfg.copy_streams = true
        · cases hm : st.stream_map with
          | none => exact h_null pkt rest st ha' hv hc hm
          | some m =>
            by_cases ho : 0 ≤ m.getD pkt.stream_index.toNat (-1)
            · exact h_pass pkt rest st m ha' hv hc hm ho (ih _)
            · exact h_unmapped pkt rest st m ha' hv hc hm ho (ih _)
        · exact h_drop pkt rest st ha' hv (bool_eq_false hc) (ih _)

/-! ## Claim C10 -/

/-- C10 as stated is false: an `AVERROR_EOF` processing status is not
indistinguishable from success at the public interface — the early check at
`src/libvideo2x.cpp` lines 454-459 returns every negative status, including
`AVERROR_EOF`, before the EOF-tolerant final check is reached, so
`process_video` returns `AVERROR_EOF` (not 0) when the processing status is
`AVERROR_EOF`. -/
theorem c10_eof_counterexample :
    process_video_tail AVERROR_EOF = AVERROR_EOF ∧ process_video_tail AVERROR_EOF ≠ 0 := by
  constructor
  · decide
  · decide

/-- C10 amended: the final check of `process_video` (lines 467-472) maps
both 0 and `AVERROR_EOF` to 0, but any negative status from
`process_frames` — `AVERROR_EOF` included — is already returned unchanged
by the earlier check, so `process_video` returns 0 exactly when the
processing status is non-negative. -/
theorem c10_return_status :
    process_video_final_check 0 = 0 ∧
    process_video_final_check AVERROR_EOF = 0 ∧
    (∀ ret : Int, 0 ≤ ret → process_video_tail ret = 0) ∧
    (∀ ret : Int, ret < 0 → process_video_tail ret = ret) := by
  refine ⟨by decide, by decide, ?_, ?_⟩
  · intro ret h
    rw [process_video_tail, process_video_final_check, if_neg (by omega), if_neg (by omega)]
  · intro ret h
    rw [process_video_tail, if_pos h]

theorem c10_return_status_witness :
    process_video_tail 7 = 0 ∧ process_video_tail (-2) = -2 :=
  ⟨c10_return_status.2.2.1 7 (by decide), c10_return_status.2.2.2 (-2) (by decide)⟩

/-! ## Claim C7 -/

theorem drain_g_ok_prefix (tb tb' : AVRational) (vidx : Int) (pre l : List RecvStep)
    (h : ∀ s ∈ pre, ∃ p m, s = RecvStep.pkt p m ∧ 0 ≤ m) :
    (drain_g tb tb' vidx (pre ++ l)).1 = (drain_g tb tb' vidx l).1 := by
  induction pre with
  | nil => rfl
  | cons s pre ih =>
    obtain ⟨p, m, hs, hm⟩ := h s (by simp)
    subst hs
    rw [List.cons_append, drain_g, if_neg (Int.not_lt.mpr hm)]
    exact ih (fun s hs => h s (by simp [hs]))

/-- C7: in `write_frame`, a negative send status, a negative receive status
other than `AVERROR(EAGAIN)`/`AVERROR_EOF` (after any run of successfully
written packets), and a negative interleaved-write status are each
propagated upward unchanged as the return value. -/
theorem c7_status_propagation :
    (∀ (tb tb' : AVRational) (vidx e : Int) (trace : List RecvStep), e < 0 →
      write_frame_env tb tb' vidx e trace = (e, [])) ∧
    (∀ (tb tb' : AVRational) (vidx s e : Int) (pre rest : List RecvStep),
      (∀ x ∈ pre, ∃ p m, x = RecvStep.pkt p m ∧ 0 ≤ m) →
      0 ≤ s → e < 0 → e ≠ AVERROR_EAGAIN → e ≠ AVERROR_EOF →
      (write_frame_env tb tb' vidx s (pre ++ RecvStep.err e :: rest)).1 = e) ∧
    (∀ (tb tb' : AVRational) (vidx s m : Int) (p : VPacket) (pre rest : List RecvStep),
      (∀ x ∈ pre, ∃ q n, x = RecvStep.pkt q n ∧ 0 ≤ n) →
      0 ≤ s → m < 0 →
      (write_frame_env tb tb' vidx s (pre ++ RecvStep.pkt p m :: rest)).1 = m) := by
  refine ⟨?_, ?_, ?_⟩
  · intro tb tb' vidx e trace he
    rw [write_frame_env, if_pos he]
  · intro tb tb' vidx s e pre rest hpre hs he h1 h2
    rw [write_frame_env, if_neg (by omega), drain_g_ok_prefix tb tb' vidx pre _ hpre, drain_g]
    simp [h1, h2]
  · intro tb tb' vidx s m p pre rest hpre hs hm
    rw [write_frame_env, if_neg (by omega), drain_g_ok_prefix tb tb' vidx pre _ hpre, drain_g]
    simp [hm]

theorem c7_status_propagation_witness :
    write_frame_env ⟨1, 1⟩ ⟨1, 1⟩ 0 (-5) [] = (-5, []) ∧
    (write_frame_env ⟨1, 1⟩ ⟨1, 1⟩ 0 0
      ([RecvStep.pkt ⟨1, 1, 0⟩ 0] ++ RecvStep.err (-22) :: [])).1 = -22 ∧
    (write_frame_env ⟨1, 1⟩ ⟨1, 1⟩ 0 0
      ([RecvStep.pkt ⟨1, 1, 0⟩ 0] ++ RecvStep.pkt ⟨2, 2, 0⟩ (-9) :: [])).1 = -9 := by
  refine ⟨c7_status_propagation.1 ⟨1, 1⟩ ⟨1, 1⟩ 0 (-5) [] (by decide),
    c7_status_propagation.2.1 ⟨1, 1⟩ ⟨1, 1⟩ 0 0 (-22) [RecvStep.pkt ⟨1, 1, 0⟩ 0] []
      ?_ (by decide) (by decide) (by decide) (by decide),
    c7_status_propagation.2.2 ⟨1, 1⟩ ⟨1, 1⟩ 0 0 (-9) ⟨2, 2, 0⟩ [RecvStep.pkt ⟨1, 1, 0⟩ 0] []
      ?_ (by decide) (by decide)⟩
  · intro x hx
    exact ⟨⟨1, 1, 0⟩, 0, List.mem_singleton.mp hx, by decide⟩
  · intro x hx
    exact ⟨⟨1, 1, 0⟩, 0, List.mem_singleton.mp hx, by decide⟩

/-! ## Claim C6 -/

theorem write_flushed_filt (cfg : PFConfig) (l : List VFrame) :
    ∀ st, (write_flushed cfg st l).2.filt = st.filt := by
  induction l with
  | nil => intro st; rw [write_flushed]
  | cons f rest ih =>
    intro st
    rw [write_flushed]
    by_cases hw : (Encoder.write_frame cfg.enc_time_base cfg.enc_pix_fmt cfg.out_vstream_idx
        st.enc st.mux f st.frame_idx).1 < 0
    · simp [hw]
    · simp [hw]
      rw [ih]

theorem write_flushed_draining (cfg : PFConfig) (l : List VFrame) :
    ∀ st, (write_flushed cfg st l).2.enc.draining = st.enc.draining := by
  induction l with
  | nil => intro st; rw [write_flushed]
  | cons f rest ih =>
    intro st
    rw [write_flushed]
    have hp := (write_frame_preserves cfg.enc_time_base cfg.enc_pix_fmt cfg.out_vstream_idx
      st.enc st.mux f st.frame_idx).1
    by_cases hw : (Encoder.write_frame cfg.enc_time_base cfg.enc_pix_fmt cfg.out_vstream_idx
        st.enc st.mux f st.frame_idx).1 < 0
    · simp [hw]
      exact hp
    · simp [hw]
      rw [ih]
      exact hp

theorem write_flushed_fail_draining (cfg : PFConfig) (l : List VFrame) :
    ∀ st, (write_flushed cfg st l).1 < 0 → st.enc.draining = true := by
  induction l with
  | nil =>
    intro st h
    rw [write_flushed] at h
    simp at h
  | cons f rest ih =>
    intro st h
    rw [write_flushed] at h
    by_cases hw : (Encoder.write_frame cfg.enc_time_base cfg.enc_pix_fmt cfg.out_vstream_idx
        st.enc st.mux f st.frame_idx).1 < 0
    · by_cases hdr : st.enc.draining = true
      · exact hdr
      · exfalso
        have hspec := write_frame_spec cfg.enc_time_base cfg.enc_pix_fmt cfg.out_vstream_idx
          st.enc st.mux f st.frame_idx (bool_eq_false hdr)
        rw [hspec] at hw
        simp at hw
    · simp [hw] at h
      have hrec := ih _ h
      have hp := (write_frame_preserves cfg.enc_time_base cfg.enc_pix_fmt cfg.out_vstream_idx
        st.enc st.mux f st.frame_idx).1
      simp at hrec
      rw [hrec] at hp
      exact hp.symm

/-- After the flush sequence the filter holds no frame and the encoder is
in draining mode, whatever state it started from. -/
theorem flush_tail_post (cfg : PFConfig) (st : PFState) :
    (flush_tail cfg st).2.filt.buffered = [] ∧
    (flush_tail cfg st).2.enc.draining = true := by
  rw [flush_tail]
  have h0 : (Filter.flush st.filt).1.1 = (0 : Int) := rfl
  rw [h0, if_neg (by decide : ¬((0 : Int) < 0))]
  set st1 := (({ st with filt := (Filter.flush st.filt).2 }).emit PEv.filterFlush) with hst1
  set w := write_flushed cfg st1 (Filter.flush st.filt).1.2 with hw_def
  have hfilt : w.2.filt = st1.filt := write_flushed_filt cfg _ _
  have hdrain : w.2.enc.draining = st1.enc.draining := write_flushed_draining cfg _ _
  have hfilt1 : st1.filt.buffered = [] := by
    rw [hst1]
    simp [Filter.flush]
  by_cases hw : w.1 < 0
  · have hfail : st1.enc.draining = true := write_flushed_fail_draining cfg _ _ hw
    rw [if_pos hw]
    refine ⟨?_, ?_⟩
    · rw [hfilt, hfilt1]
    · rw [hdrain, hfail]
  · rw [if_neg hw]
    refine ⟨?_, ?_⟩
    · simp only [PFState.emit_filt, hfilt, hfilt1]
    · simp only [PFState.emit_enc]
      by_cases hdr : w.2.enc.draining = true
      · rw [flush_draining _ _ _ _ hdr]
        simpa using hdr
      · rw [flush_spec _ _ _ _ (bool_eq_false hdr)]

/-- A flush sequence starting from a drained state (empty filter buffer,
draining encoder) writes no packet at all. -/
theorem flush_tail_noop (cfg : PFConfig) (st : PFState)
    (hb : st.filt.buffered = []) (hdr : st.enc.draining = true) :
    (flush_tail cfg st).2.mux.written = st.mux.written := by
  rw [flush_tail]
  simp [Filter.flush, hb, write_flushed, flush_draining, hdr]

/-- C6: after one complete flush sequence (filter flush, submission of the
flushed frames, encoder flush), running the whole sequence a second time
writes zero further packets to the muxer. -/
theorem c6_flush_idempotent (cfg : PFConfig) (st : PFState) :
    (flush_tail cfg (flush_tail cfg st).2).2.mux.written =
      (flush_tail cfg st).2.mux.written := by
  obtain ⟨hb, hdr⟩ := flush_tail_post cfg st
  exact flush_tail_noop cfg _ hb hdr

/-! ## Claims C5 and C4: the stream passthrough mapper -/

instance : Inhabited InStream := ⟨⟨⟨MediaType.unknown, 0, 0⟩, ⟨1, 1⟩⟩⟩

instance : Inhabited OutStreamS := ⟨⟨⟨MediaType.unknown, 0, 0⟩, ⟨1, 1⟩⟩⟩

theorem list_getD_append_mid {α : Type} (l1 : List α) (a : α) (l2 : List α) (d : α) :
    (l1 ++ a :: l2).getD l1.length d = a := by
  induction l1 with
  | nil => rfl
  | cons x l1 ih => simpa using ih

theorem map_streams_outs_prefix (vidx : Nat) (ov : Int) :
    ∀ (l : List InStream) (i : Nat) (outs : List OutStreamS),
      ∃ ext, (map_streams vidx ov i outs l).1 = outs ++ ext := by
  intro l
  induction l with
  | nil => exact fun i outs => ⟨[], by simp [map_streams]⟩
  | cons s rest ih =>
    intro i outs
    by_cases h1 : i = vidx
    · subst h1
      obtain ⟨ext, hext⟩ := ih (i + 1) outs
      exact ⟨ext, by simp [map_streams, hext]⟩
    · by_cases h2 : s.codecpar.codec_type = MediaType.audio ∨
        s.codecpar.codec_type = MediaType.subtitle
      · set out : OutStreamS :=
          { codecpar := { s.codecpar with codec_tag := 0 }, time_base := s.time_base } with hout
        obtain ⟨ext, hext⟩ := ih (i + 1) (outs ++ [out])
        refine ⟨out :: ext, ?_⟩
        simp [map_streams, h1, h2, hext]
      · obtain ⟨ext, hext⟩ := ih (i + 1) outs
        exact ⟨ext, by simp [map_streams, h1, h2, hext]⟩

theorem map_streams_video_entry (vidx : Nat) (ov : Int) :
    ∀ (l : List InStream) (i j : Nat) (outs : List OutStreamS), j < l.length →
      i + j = vidx → (map_streams vidx ov i outs l).2.getD j (-1) = ov := by
  intro l
  induction l with
  | nil => intro i j outs hj; simp at hj
  | cons s rest ih =>
    intro i j outs hj hij
    cases j with
    | zero =>
      have h1 : i = vidx := by omega
      subst h1
      simp [map_streams]
    | succ j =>
      have hij' : (i + 1) + j = vidx := by omega
      have hj' : j < rest.length := by simpa using hj
      by_cases h1 : i = vidx
      · subst h1
        simpa [map_streams] using ih (i + 1) j outs hj' hij'
      · by_cases h2 : s.codecpar.codec_type = MediaType.audio ∨
          s.codecpar.codec_type = MediaType.subtitle
        · simpa [map_streams, h1, h2] using ih (i + 1) j _ hj' hij'
        · simpa [map_streams, h1, h2] using ih (i + 1) j outs hj' hij'

theorem map_streams_dropped_entry (vidx : Nat) (ov : Int) :
    ∀ (l : List InStream) (i j : Nat) (outs : List OutStreamS) (hj : j < l.length),
      i + j ≠ vidx →
      ¬((l.get ⟨j, hj⟩).codecpar.codec_type = MediaType.audio ∨
        (l.get ⟨j, hj⟩).codecpar.codec_type = MediaType.subtitle) →
      (map_streams vidx ov i outs l).2.getD j (-1) = -1 := by
  intro l
  induction l with
  | nil => intro i j outs hj; simp at hj
  | cons s rest ih =>
    intro i j outs hj hij htype
    cases j with
    | zero =>
      have h1 : ¬i = vidx := by omega
      simp only [List.get] at htype
      simp [map_streams, h1, htype]
    | succ j =>
      have hij' : (i + 1) + j ≠ vidx := by omega
      have hj' : j < rest.length := by simpa using hj
      have htype' : ¬((rest.get ⟨j, hj'⟩).codecpar.codec_type = MediaType.audio ∨
          (rest.get ⟨j, hj'⟩).codecpar.codec_type = MediaType.subtitle) := by
        simpa [List.get] using htype
      by_cases h1 : i = vidx
      · subst h1
        simpa [map_streams] using ih (i + 1) j outs hj' hij' htype'
      · by_cases h2 : s.codecpar.codec_type = MediaType.audio ∨
          s.codecpar.codec_type = MediaType.subtitle
        · simpa [map_streams, h1, h2] using ih (i + 1) j _ hj' hij' htype'
        · simpa [map_streams, h1, h2] using ih (i + 1) j outs hj' hij' htype'

theorem map_streams_kept_entry (vidx : Nat) (ov : Int) :
    ∀ (l : List InStream) (i j : Nat) (outs : List OutStreamS) (hj : j < l.length),
      i + j ≠ vidx →
      ((l.get ⟨j, hj⟩).codecpar.codec_type = MediaType.audio ∨
        (l.get ⟨j, hj⟩).codecpar.codec_type = MediaType.subtitle) →
      ∃ k : Nat, (map_streams vidx ov i outs l).2.getD j (-1) = (k : Int) ∧
        outs.length ≤ k ∧
        (map_streams vidx ov i outs l).1.getD k default =
          { codecpar := { (l.get ⟨j, hj⟩).codecpar with codec_tag := 0 }
            time_base := (l.get ⟨j, hj⟩).time_base } := by
  intro l
  induction l with
  | nil => intro i j outs hj; simp at hj
  | cons s rest ih =>
    intro i j outs hj hij htype
    cases j with
    | zero =>
      have h1 : ¬i = vidx := by omega
      simp only [List.get] at htype
      refine ⟨outs.length, ?_, le_refl _, ?_⟩
      · simp [map_streams, h1, htype]
      · obtain ⟨ext, hext⟩ := map_streams_outs_prefix vidx ov rest (i + 1)
          (outs ++ [{ codecpar := { s.codecpar with codec_tag := 0 }, time_base := s.time_base }])
        simp only [map_streams, h1, if_false, htype, if_pos, if_true, List.get]
        simp only [hext]
        rw [List.append_assoc, List.singleton_append]
        exact list_getD_append_mid outs _ _ _
    | succ j =>
      have hij' : (i + 1) + j ≠ vidx := by omega
      have hj' : j < rest.length := by simpa using hj
      have htype' : ((rest.get ⟨j, hj'⟩).codecpar.codec_type = MediaType.audio ∨
          (rest.get ⟨j, hj'⟩).codecpar.codec_type = MediaType.subtitle) := by
        simpa [List.get] using htype
      by_cases h1 : i = vidx
      · subst h1
        obtain ⟨k, hk1, hk2, hk3⟩ := ih (i + 1) j outs hj' hij' htype'
        refine ⟨k, ?_, hk2, ?_⟩
        · simpa [map_streams] using hk1
        · simpa [map_streams, List.get] using hk3
      · by_cases h2 : s.codecpar.codec_type = MediaType.audio ∨
          s.codecpar.codec_type = MediaType.subtitle
        · obtain ⟨k, hk1, hk2, hk3⟩ := ih (i + 1) j
            (outs ++ [{ codecpar := { s.codecpar with codec_tag := 0 }, time_base := s.time_base }])
            hj' hij' htype'
          refine ⟨k, ?_, ?_, ?_⟩
          · simpa [map_streams, h1, h2] using hk1
          · simp at hk2
            omega
          · simpa [map_streams, h1, h2, List.get] using hk3
        · obtain ⟨k, hk1, hk2, hk3⟩ := ih (i + 1) j outs hj' hij' htype'
          refine ⟨k, ?_, hk2, ?_⟩
          · simpa [map_streams, h1, h2] using hk1
          · simpa [map_streams, h1, h2, List.get] using hk3

/-- C5: with copy-streams enabled, every non-video audio/subtitle input
stream is mapped to a fresh output stream whose codec parameters are the
input's with the codec tag cleared and whose time base is the input's;
every other non-video stream maps to the dropped sentinel `-1` and creates
no output stream; for an input of 1 video + 1 audio + 1 unknown stream the
output container has exactly 2 streams and the map is `[0, 1, -1]`. -/
theorem c5_copy_streams :
    (∀ (vout : OutStreamS) (streams : List InStream) (vidx j : Nat) (hj : j < streams.length),
      j ≠ vidx →
      ((streams.get ⟨j, hj⟩).codecpar.codec_type = MediaType.audio ∨
        (streams.get ⟨j, hj⟩).codecpar.codec_type = MediaType.subtitle) →
      ∃ k : Nat,
        ((encoder_init_streams true vout streams vidx).stream_map.getD []).getD j (-1) = (k : Int) ∧
        1 ≤ k ∧
        (encoder_init_streams true vout streams vidx).out_streams.getD k default =
          { codecpar := { (streams.get ⟨j, hj⟩).codecpar with codec_tag := 0 }
            time_base := (streams.get ⟨j, hj⟩).time_base }) ∧
    (∀ (vout : OutStreamS) (streams : List InStream) (vidx j : Nat) (hj : j < streams.length),
      j ≠ vidx →
      ¬((streams.get ⟨j, hj⟩).codecpar.codec_type = MediaType.audio ∨
        (streams.get ⟨j, hj⟩).codecpar.codec_type = MediaType.subtitle) →
      ((encoder_init_streams true vout streams vidx).stream_map.getD []).getD j (-1) = -1) ∧
    ((encoder_init_streams true ⟨⟨MediaType.video, 0, 11⟩, ⟨1, 25⟩⟩
        [⟨⟨MediaType.video, 4, 21⟩, ⟨1, 25⟩⟩, ⟨⟨MediaType.audio, 5, 22⟩, ⟨1, 48000⟩⟩,
          ⟨⟨MediaType.unknown, 6, 23⟩, ⟨1, 90000⟩⟩] 0).out_streams.length = 2 ∧
      (encoder_init_streams true ⟨⟨MediaType.video, 0, 11⟩, ⟨1, 25⟩⟩
        [⟨⟨MediaType.video, 4, 21⟩, ⟨1, 25⟩⟩, ⟨⟨MediaType.audio, 5, 22⟩, ⟨1, 48000⟩⟩,
          ⟨⟨MediaType.unknown, 6, 23⟩, ⟨1, 90000⟩⟩] 0).stream_map = some [0, 1, -1]) := by
  refine ⟨?_, ?_, by decide, by decide⟩
  · intro vout streams vidx j hj hne htype
    obtain ⟨k, hk1, hk2, hk3⟩ := map_streams_kept_entry vidx 0 streams 0 j [vout] hj
      (by omega) htype
    refine ⟨k, ?_, by simpa using hk2, ?_⟩
    · rw [encoder_init_streams]
      simpa using hk1
    · rw [encoder_init_streams]
      simpa using hk3
  · intro vout streams vidx j hj hne htype
    rw [encoder_init_streams]
    simpa using map_streams_dropped_entry vidx 0 streams 0 j [vout] hj (by omega) htype

theorem c5_copy_streams_witness :
    ∃ k : Nat,
      ((encoder_init_streams true ⟨⟨MediaType.video, 0, 11⟩, ⟨1, 25⟩⟩
        [⟨⟨MediaType.video, 4, 21⟩, ⟨1, 25⟩⟩, ⟨⟨MediaType.audio, 5, 22⟩, ⟨1, 48000⟩⟩] 0).stream_map.getD
          []).getD 1 (-1) = (k : Int) ∧
      1 ≤ k ∧
      (encoder_init_streams true ⟨⟨MediaType.video, 0, 11⟩, ⟨1, 25⟩⟩
        [⟨⟨MediaType.video, 4, 21⟩, ⟨1, 25⟩⟩, ⟨⟨MediaType.audio, 5, 22⟩, ⟨1, 48000⟩⟩] 0).out_streams.getD
          k default =
        { codecpar := ⟨MediaType.audio, 0, 22⟩, time_base := ⟨1, 48000⟩ } :=
  c5_copy_streams.1 ⟨⟨MediaType.video, 0, 11⟩, ⟨1, 25⟩⟩
    [⟨⟨MediaType.video, 4, 21⟩, ⟨1, 25⟩⟩, ⟨⟨MediaType.audio, 5, 22⟩, ⟨1, 48000⟩⟩] 0 1
    (by decide) (by decide) (by decide)

theorem main_loop_map (cfg : PFConfig) :
    ∀ input st, (main_loop cfg input st).2.stream_map = st.stream_map := by
  refine main_loop_rec cfg
    (fun input st => (main_loop cfg input st).2.stream_map = st.stream_map)
    ?_ ?_ ?_ ?_ ?_ ?_ ?_ ?_
  · intro input st ha
    rw [main_loop_eq_abort cfg input st ha]
    simp
  · intro st ha
    rw [main_loop_eq_nil cfg st ha]
    simp
  · intro pkt rest st ha hv he
    rw [main_loop_eq_video_err cfg pkt rest st ha hv he,
      (inner_loop_stable cfg (mainSend cfg st pkt)).1]
    simp [mainSend]
  · intro pkt rest st ha hv he IH
    rw [main_loop_eq_video cfg pkt rest st ha hv he, IH,
      (inner_loop_stable cfg (mainSend cfg st pkt)).1]
    simp [mainSend]
  · intro pkt rest st ha hv hc hm
    rw [main_loop_eq_null_map cfg pkt rest st ha hv hc hm]
    simp
  · intro pkt rest st m ha hv hc hm ho IH
    rw [main_loop_eq_pass cfg pkt rest st m ha hv hc hm ho, IH]
    simp [mainPass]
  · intro pkt rest st m ha hv hc hm ho IH
    rw [main_loop_eq_drop_unmapped cfg pkt rest st m ha hv hc hm ho, IH]
    simp
  · intro pkt rest st ha hv hc IH
    rw [main_loop_eq_drop cfg pkt rest st ha hv hc, IH]
    simp

theorem write_flushed_map (cfg : PFConfig) (l : List VFrame) :
    ∀ st, (write_flushed cfg st l).2.stream_map = st.stream_map := by
  induction l with
  | nil => intro st; rw [write_flushed]
  | cons f rest ih =>
    intro st
    rw [write_flushed]
    by_cases hw : (Encoder.write_frame cfg.enc_time_base cfg.enc_pix_fmt cfg.out_vstream_idx
        st.enc st.mux f st.frame_idx).1 < 0
    · simp [hw]
    · simp [hw]
      rw [ih]

theorem flush_tail_map (cfg : PFConfig) (st : PFState) :
    (flush_tail cfg st).2.stream_map = st.stream_map := by
  rw [flush_tail]
  have h0 : (Filter.flush st.filt).1.1 = (0 : Int) := rfl
  rw [h0, if_neg (by decide : ¬((0 : Int) < 0))]
  set st1 := (({ st with filt := (Filter.flush st.filt).2 }).emit PEv.filterFlush) with hst1
  set w := write_flushed cfg st1 (Filter.flush st.filt).1.2 with hw_def
  have hmap : w.2.stream_map = st1.stream_map := write_flushed_map cfg _ _
  have hmap1 : st1.stream_map = st.stream_map := by
    rw [hst1]
    simp
  by_cases hw : w.1 < 0
  · rw [if_pos hw, hmap, hmap1]
  · rw [if_neg hw]
    simp only [PFState.emit_map]
    rw [hmap, hmap1]

theorem process_frames_map (cfg : PFConfig) (input : List VPacket) (st : PFState) :
    (process_frames cfg input st).2.stream_map = st.stream_map := by
  rw [process_frames]
  by_cases h : (main_loop cfg input st).1 < 0
  · simp [h, main_loop_map]
  · simp [h, flush_tail_map, main_loop_map]

/-- C4: the stream map entry of the designated input video stream is the
single output video stream index (0), established during `Encoder::init`
before any packet is processed; `process_frames` never modifies the map, so
looking up the same input index at any two points of one run yields the
same output index. -/
theorem c4_stream_map_stable :
    (∀ (vout : OutStreamS) (streams : List InStream) (vidx : Nat), vidx < streams.length →
      ((encoder_init_streams true vout streams vidx).stream_map.getD []).getD vidx (-1) = 0) ∧
    (∀ (cfg : PFConfig) (input : List VPacket) (st : PFState),
      (process_frames cfg input st).2.stream_map = st.stream_map) := by
  constructor
  · intro vout streams vidx hv
    rw [encoder_init_streams]
    simpa using map_streams_video_entry vidx 0 streams 0 vidx [vout] hv (by omega)
  · exact process_frames_map

/-! ## Concrete run configurations used by the scenario claims -/

/-- A 1/25 time base, shared by the concrete scenarios. -/
def tb25 : AVRational := ⟨1, 25⟩

/-- Configuration of the C1 scenario: one video stream, no stream copying,
normal (non-benchmark) mode, each packet decodes to one frame with pts 0,
identical encoder and output time bases, no pause or abort. -/
def cfgC1 : PFConfig :=
  { copy_streams := false
    benchmark := false
    vstream_idx := 0
    in_stream_tbs := [tb25]
    decode := fun _ => [{ pts := 0, format := 0 }]
    enc_time_base := tb25
    enc_pix_fmt := 0
    out_vstream_idx := 0
    pauseL := []
    abortL := [] }

/-- Initial state of the concrete scenarios: everything empty, one output
stream with time base 1/25, no stream map. -/
def stC1 : PFState :=
  { dec := []
    filt := { delay := 0, buffered := [] }
    enc := { buffered := [], draining := false }
    mux := { streams := [tb25], written := [] }
    stream_map := none
    processed_frames := 0
    frame_idx := 0
    tick := 0
    events := []
    fault := false }

/-- Ten packets of the designated video stream. -/
def inputC1 : List VPacket :=
  List.map (fun n => { pts := (n : Int), dts := (n : Int), stream_index := 0 })
    (List.range 10)

theorem c4_stream_map_stable_witness :
    ((encoder_init_streams true ⟨⟨MediaType.video, 0, 11⟩, tb25⟩
        [⟨⟨MediaType.video, 4, 21⟩, tb25⟩] 0).stream_map.getD []).getD 0 (-1) = 0 ∧
    (process_frames cfgC1 [] stC1).2.stream_map = none :=
  ⟨c4_stream_map_stable.1 ⟨⟨MediaType.video, 0, 11⟩, tb25⟩ [⟨⟨MediaType.video, 4, 21⟩, tb25⟩] 0
      (by decide),
    (c4_stream_map_stable.2 cfgC1 [] stC1).trans rfl⟩

/-! ## Executable run specifications (no pause, no abort) -/

/-- The outputs and final state of feeding a list of frames, in order,
through the filter. -/
def filt_run (s : FilterS) : List VFrame → List VFrame × FilterS
  | [] => ([], s)
  | f :: rest =>
    let r := Filter.process_frame s f
    let w := filt_run r.2 rest
    (r.1.2.toList ++ w.1, w.2)

/-- The packets the encode stage writes for a list of submitted frames,
with the sequence counter starting at `i0`: each frame's pts is defaulted
to the counter when unset, then rescaled and tagged. -/
def submit_run (tb tb_out : AVRational) (vidx : Nat) (i0 : Int) : List VFrame → List VPacket
  | [] => []
  | pf :: rest =>
    let p := if pf.pts ≤ 0 then i0 else pf.pts
    rescale_tag tb tb_out (vidx : Int) { pts := p, dts := p, stream_index := 0 } ::
      submit_run tb tb_out vidx (i0 + 1) rest

theorem submit_run_length (tb tb_out : AVRational) (vidx : Nat) :
    ∀ (l : List VFrame) (i0 : Int), (submit_run tb tb_out vidx i0 l).length = l.length := by
  intro l
  induction l with
  | nil => intro i0; rfl
  | cons f rest ih => intro i0; simp [submit_run, ih]

theorem filt_run_append (s : FilterS) (l1 l2 : List VFrame) :
    filt_run s (l1 ++ l2) =
      ((filt_run s l1).1 ++ (filt_run (filt_run s l1).2 l2).1,
        (filt_run (filt_run s l1).2 l2).2) := by
  induction l1 generalizing s with
  | nil => simp [filt_run]
  | cons f rest ih => simp [filt_run, ih]

theorem submit_run_append (tb tb_out : AVRational) (vidx : Nat) (l1 l2 : List VFrame) :
    ∀ i0, submit_run tb tb_out vidx i0 (l1 ++ l2) =
      submit_run tb tb_out vidx i0 l1 ++
        submit_run tb tb_out vidx (i0 + l1.length) l2 := by
  induction l1 with
  | nil => intro i0; simp [submit_run]
  | cons f rest ih =>
    intro i0
    simp [submit_run, ih (i0 + 1)]
    ring_nf

/-- The model filter conserves frames: each call emits or buffers. -/
theorem filter_conserve (s : FilterS) (f : VFrame) :
    (Filter.process_frame s f).1.2.toList.length +
      (Filter.process_frame s f).2.buffered.length = s.buffered.length + 1 := by
  rw [Filter.process_frame]
  by_cases h : s.delay < s.buffered.length + 1
  · cases hb : s.buffered with
    | nil => simp_all
    | cons x xs =>
      simp_all
      omega
  · simp [h]

/-- Frame conservation over a whole run: outputs plus what stays buffered
equal the initial buffer plus the inputs. -/
theorem filt_run_conserve (l : List VFrame) :
    ∀ s, (filt_run s l).1.length + (filt_run s l).2.buffered.length =
      s.buffered.length + l.length := by
  induction l with
  | nil => intro s; simp [filt_run]
  | cons f rest ih =>
    intro s
    have h1 := filter_conserve s f
    have h2 := ih (Filter.process_frame s f).2
    simp [filt_run]
    omega

theorem abortAt_nil {cfg : PFConfig} (h : cfg.abortL = []) (t : Nat) :
    abortAt cfg t = false := by
  simp [abortAt, h]

theorem pauseAt_nil {cfg : PFConfig} (h : cfg.pauseL = []) (t : Nat) :
    pauseAt cfg t = false := by
  simp [pauseAt, h]

/-- Full characterisation of one inner-loop drain with no pause and no
abort scheduled, starting from an idle encoder: the loop consumes every
decoded frame, runs each through the filter, and — outside benchmark mode —
submits every filter output to the encode stage, which writes one rescaled,
tagged packet per output frame with the pts fallback applied. -/
theorem inner_loop_run (cfg : PFConfig) (habort : cfg.abortL = [])
    (hpause : cfg.pauseL = []) :
    ∀ st : PFState, st.enc.draining = false → st.enc.buffered = [] →
      (inner_loop cfg st).1 = 0 ∧
      (inner_loop cfg st).2.dec = [] ∧
      (inner_loop cfg st).2.filt = (filt_run st.filt st.dec).2 ∧
      (inner_loop cfg st).2.processed_frames =
        st.processed_frames + (filt_run st.filt st.dec).1.length ∧
      (inner_loop cfg st).2.enc.draining = false ∧
      (inner_loop cfg st).2.enc.buffered = [] ∧
      (inner_loop cfg st).2.mux.streams = st.mux.streams ∧
      (if cfg.benchmark = true then
        (inner_loop cfg st).2.frame_idx = st.frame_idx ∧
        (inner_loop cfg st).2.mux.written = st.mux.written
      else
        (inner_loop cfg st).2.frame_idx =
          st.frame_idx + ((filt_run st.filt st.dec).1.length : Int) ∧
        (inner_loop cfg st).2.mux.written = st.mux.written ++
          submit_run cfg.enc_time_base (st.mux.streams.getD cfg.out_vstream_idx ⟨1, 1⟩)
            cfg.out_vstream_idx st.frame_idx (filt_run st.filt st.dec).1) := by
  refine inner_loop_rec cfg (fun st => st.enc.draining = false → st.enc.buffered = [] →
      (inner_loop cfg st).1 = 0 ∧
      (inner_loop cfg st).2.dec = [] ∧
      (inner_loop cfg st).2.filt = (filt_run st.filt st.dec).2 ∧
      (inner_loop cfg st).2.processed_frames =
        st.processed_frames + (filt_run st.filt st.dec).1.length ∧
      (inner_loop cfg st).2.enc.draining = false ∧
      (inner_loop cfg st).2.enc.buffered = [] ∧
      (inner_loop cfg st).2.mux.streams = st.mux.streams ∧
      (if cfg.benchmark = true then
        (inner_loop cfg st).2.frame_idx = st.frame_idx ∧
        (inner_loop cfg st).2.mux.written = st.mux.written
      else
        (inner_loop cfg st).2.frame_idx =
          st.frame_idx + ((filt_run st.filt st.dec).1.length : Int) ∧
        (inner_loop cfg st).2.mux.written = st.mux.written ++
          submit_run cfg.enc_time_base (st.mux.streams.getD cfg.out_vstream_idx ⟨1, 1⟩)
            cfg.out_vstream_idx st.frame_idx (filt_run st.filt st.dec).1))
    ?_ ?_ ?_ ?_ ?_ ?_ ?_
  · intro st ha
    rw [abortAt_nil habort] at ha
    cases ha
  · intro st ha hp
    rw [pauseAt_nil hpause] at hp
    cases hp
  · intro st ha hp hd hdr hbuf
    rw [inner_loop_eq_nil cfg st ha hp hd, hd]
    by_cases hb : cfg.benchmark = true <;> simp [filt_run, hb, hdr, hbuf, hd, submit_run]
  · intro st f rest F' ha hp hd hf IH hdr hbuf
    have IH' := IH (by simp [stepNone, stepRecv, hdr]) (by simp [stepNone, stepRecv, hbuf])
    rw [inner_loop_eq_none cfg st f rest F' ha hp hd hf]
    obtain ⟨j1, j2, j3, j4, j5, j6, j7, j8⟩ := IH'
    have hrun : filt_run st.filt st.dec =
        ((filt_run F' rest).1, (filt_run F' rest).2) := by
      rw [hd]
      simp [filt_run, hf]
    refine ⟨j1, j2, ?_, ?_, j5, j6, ?_, ?_⟩
    · rw [j3, hrun]
      simp [stepNone, stepRecv]
    · rw [j4, hrun]
      simp [stepNone, stepRecv]
    · rw [j7]
      simp [stepNone, stepRecv]
    · rw [hrun]
      by_cases hb : cfg.benchmark = true
      · rw [if_pos hb]
        rw [if_pos hb] at j8
        refine ⟨j8.1.trans (by simp [stepNone, stepRecv]), j8.2.trans (by simp [stepNone, stepRecv])⟩
      · rw [if_neg hb]
        rw [if_neg hb] at j8
        constructor
        · rw [j8.1]
          simp [stepNone, stepRecv]
        · rw [j8.2]
          simp [stepNone, stepRecv]
  · intro st f rest pf F' ha hp hd hf hb IH hdr hbuf
    have IH' := IH (by simp [stepBench, stepRecv, hdr]) (by simp [stepBench, stepRecv, hbuf])
    rw [inner_loop_eq_bench cfg st f rest pf F' ha hp hd hf hb]
    obtain ⟨j1, j2, j3, j4, j5, j6, j7, j8⟩ := IH'
    have hrun : filt_run st.filt st.dec =
        (pf :: (filt_run F' rest).1, (filt_run F' rest).2) := by
      rw [hd]
      simp [filt_run, hf]
    refine ⟨j1, j2, ?_, ?_, j5, j6, ?_, ?_⟩
    · rw [j3, hrun]
      simp [stepBench, stepRecv]
    · rw [j4, hrun]
      simp [stepBench, stepRecv]
      omega
    · rw [j7]
      simp [stepBench, stepRecv]
    · rw [if_pos hb]
      rw [if_pos hb] at j8
      refine ⟨j8.1.trans (by simp [stepBench, stepRecv]), j8.2.trans (by simp [stepBench, stepRecv])⟩
  · intro st f rest pf F' enc' mux' ha hp hd hf hb hw IH hdr hbuf
    have hspec := write_frame_spec cfg.enc_time_base cfg.enc_pix_fmt cfg.out_vstream_idx
      st.enc st.mux pf st.frame_idx hdr
    rw [hw] at hspec
    have henc' : enc' = { buffered := [], draining := false } := by
      have := congrArg (fun x => x.2.1) hspec
      simpa using this
    have hmux' : mux' = { st.mux with written := st.mux.written ++
        ((st.enc.buffered ++ [({ pts := if pf.pts ≤ 0 then st.frame_idx else pf.pts
                                 dts := if pf.pts ≤ 0 then st.frame_idx else pf.pts
                                 stream_index := 0 } : VPacket)]).map
          (rescale_tag cfg.enc_time_base (st.mux.streams.getD cfg.out_vstream_idx ⟨1, 1⟩)
            cfg.out_vstream_idx)) } := by
      have := congrArg (fun x => x.2.2) hspec
      simpa using this
    have IH' := IH (by simp [stepWrite, stepNone, stepRecv, henc'])
      (by simp [stepWrite, stepNone, stepRecv, henc'])
    rw [inner_loop_eq_write cfg st f rest pf F' enc' mux' ha hp hd hf hb hw]
    obtain ⟨j1, j2, j3, j4, j5, j6, j7, j8⟩ := IH'
    have hrun : filt_run st.filt st.dec =
        (pf :: (filt_run F' rest).1, (filt_run F' rest).2) := by
      rw [hd]
      simp [filt_run, hf]
    refine ⟨j1, j2, ?_, ?_, j5, j6, ?_, ?_⟩
    · rw [j3, hrun]
      simp [stepWrite, stepNone, stepRecv]
    · rw [j4, hrun]
      simp [stepWrite, stepNone, stepRecv]
      omega
    · rw [j7]
      simp [stepWrite, stepNone, stepRecv, hmux']
    · have hb' : ¬cfg.benchmark = true := by simp [hb]
      rw [if_neg hb']
      rw [if_neg hb'] at j8
      rw [hrun]
      constructor
      · rw [j8.1]
        simp [stepWrite, stepNone, stepRecv]
        ring_nf
      · rw [j8.2]
        simp [stepWrite, stepNone, stepRecv, hmux', hbuf, submit_run]
  · intro st f rest pf F' e enc' mux' ha hp hd hf hb hw he hdr hbuf
    exfalso
    have hspec := write_frame_spec cfg.enc_time_base cfg.enc_pix_fmt cfg.out_vstream_idx
      st.enc st.mux pf st.frame_idx hdr
    rw [hw] at hspec
    have : e = 0 := by
      have := congrArg (fun x => x.1) hspec
      simpa using this
    omega

/-- The frames the decoder produces for the designated video stream over a
packet list, in order. -/
def vid_frames (cfg : PFConfig) (input : List VPacket) : List VFrame :=
  ((input.filter (fun p => decide (p.stream_index = cfg.vstream_idx))).map cfg.decode).flatten

theorem vid_frames_nil (cfg : PFConfig) : vid_frames cfg [] = [] := rfl

theorem vid_frames_cons_video (cfg : PFConfig) (pkt : VPacket) (rest : List VPacket)
    (hv : pkt.stream_index = cfg.vstream_idx) :
    vid_frames cfg (pkt :: rest) = cfg.decode pkt ++ vid_frames cfg rest := by
  simp [vid_frames, hv]

theorem vid_frames_cons_other (cfg : PFConfig) (pkt : VPacket) (rest : List VPacket)
    (hv : pkt.stream_index ≠ cfg.vstream_idx) :
    vid_frames cfg (pkt :: rest) = vid_frames cfg rest := by
  simp [vid_frames, hv]

/-- Full characterisation of the read loop with no pause and no abort
scheduled, starting from an idle encoder and an empty decoder: every
video packet is decoded and filtered in order; outside benchmark mode (and
with stream copying disabled) the muxer receives exactly the packets of
the filter outputs, sequence-numbered from the initial counter. -/
theorem main_loop_run (cfg : PFConfig) (habort : cfg.abortL = [])
    (hpause : cfg.pauseL = []) :
    ∀ (input : List VPacket) (st : PFState),
      st.enc.draining = false → st.enc.buffered = [] → st.dec = [] →
      (cfg.copy_streams = true → st.stream_map.isSome = true) →
      (main_loop cfg input st).1 = 0 ∧
      (main_loop cfg input st).2.dec = [] ∧
      (main_loop cfg input st).2.filt = (filt_run st.filt (vid_frames cfg input)).2 ∧
      (main_loop cfg input st).2.processed_frames =
        st.processed_frames + (filt_run st.filt (vid_frames cfg input)).1.length ∧
      (main_loop cfg input st).2.enc.draining = false ∧
      (main_loop cfg input st).2.enc.buffered = [] ∧
      (main_loop cfg input st).2.mux.streams = st.mux.streams ∧
      (cfg.copy_streams = false →
        (if cfg.benchmark = true then
          (main_loop cfg input st).2.frame_idx = st.frame_idx ∧
          (main_loop cfg input st).2.mux.written = st.mux.written
        else
          (main_loop cfg input st).2.frame_idx =
            st.frame_idx + ((filt_run st.filt (vid_frames cfg input)).1.length : Int) ∧
          (main_loop cfg input st).2.mux.written = st.mux.written ++
            submit_run cfg.enc_time_base (st.mux.streams.getD cfg.out_vstream_idx ⟨1, 1⟩)
              cfg.out_vstream_idx st.frame_idx (filt_run st.filt (vid_frames cfg input)).1)) := by
  refine main_loop_rec cfg (fun input st =>
      st.enc.draining = false → st.enc.buffered = [] → st.dec = [] →
      (cfg.copy_streams = true → st.stream_map.isSome = true) →
      (main_loop cfg input st).1 = 0 ∧
      (main_loop cfg input st).2.dec = [] ∧
      (main_loop cfg input st).2.filt = (filt_run st.filt (vid_frames cfg input)).2 ∧
      (main_loop cfg input st).2.processed_frames =
        st.processed_frames + (filt_run st.filt (vid_frames cfg input)).1.length ∧
      (main_loop cfg input st).2.enc.draining = false ∧
      (main_loop cfg input st).2.enc.buffered = [] ∧
      (main_loop cfg input st).2.mux.streams = st.mux.streams ∧
      (cfg.copy_streams = false →
        (if cfg.benchmark = true then
          (main_loop cfg input st).2.frame_idx = st.frame_idx ∧
          (main_loop cfg input st).2.mux.written = st.mux.written
        else
          (main_loop cfg input st).2.frame_idx =
            st.frame_idx + ((filt_run st.filt (vid_frames cfg input)).1.length : Int) ∧
          (main_loop cfg input st).2.mux.written = st.mux.written ++
            submit_run cfg.enc_time_base (st.mux.streams.getD cfg.out_vstream_idx ⟨1, 1⟩)
              cfg.out_vstream_idx st.frame_idx (filt_run st.filt (vid_frames cfg input)).1)))
    ?_ ?_ ?_ ?_ ?_ ?_ ?_ ?_
  · intro input st ha
    rw [abortAt_nil habort] at ha
    cases ha
  · intro st ha hdr hbuf hdec hmap
    rw [main_loop_eq_nil cfg st ha, vid_frames_nil]
    by_cases hb : cfg.benchmark = true <;>
      simp [filt_run, hb, hdr, hbuf, hdec, submit_run]
  · intro pkt rest st ha hv he hdr hbuf hdec hmap
    exfalso
    have hrun := (inner_loop_run cfg habort hpause (mainSend cfg st pkt)
      (by simp [mainSend, hdr]) (by simp [mainSend, hbuf])).1
    omega
  · intro pkt rest st ha hv he IH hdr hbuf hdec hmap
    have hrun := inner_loop_run cfg habort hpause (mainSend cfg st pkt)
      (by simp [mainSend, hdr]) (by simp [mainSend, hbuf])
    obtain ⟨k1, k2, k3, k4, k5, k6, k7, k8⟩ := hrun
    have hstab := inner_loop_stable cfg (mainSend cfg st pkt)
    have hmd : (mainSend cfg st pkt).dec = cfg.decode pkt := by
      simp [mainSend, hdec]
    have hmf : (mainSend cfg st pkt).filt = st.filt := by simp [mainSend]
    have IH' := IH k5 k6 k2 (fun hc => by
      rw [hstab.1] at *
      exact (by simpa [mainSend] using hstab.1 ▸ hmap hc))
    obtain ⟨j1, j2, j3, j4, j5, j6, j7, j8⟩ := IH'
    rw [main_loop_eq_video cfg pkt rest st ha hv he]
    have hvf := vid_frames_cons_video cfg pkt rest hv
    have hsplit := filt_run_append st.filt (cfg.decode pkt) (vid_frames cfg rest)
    refine ⟨j1, j2, ?_, ?_, j5, j6, ?_, ?_⟩
    · rw [j3, k3, hmd, hmf, hvf, hsplit]
    · rw [j4, k4, k3, hmd, hmf, hvf, hsplit]
      simp [mainSend]
      omega
    · rw [j7, k7]
      simp [mainSend]
    · intro hcopy
      have j8' := j8 hcopy
      by_cases hb : cfg.benchmark = true
      · rw [if_pos hb] at j8' k8 ⊢
        refine ⟨j8'.1.trans (k8.1.trans (by simp [mainSend])),
          j8'.2.trans (k8.2.trans (by simp [mainSend]))⟩
      · rw [if_neg hb] at j8' k8 ⊢
        constructor
        · rw [j8'.1, k8.1, k3, hmd, hmf, hvf, hsplit]
          simp [mainSend]
          ring_nf
        · rw [j8'.2, k8.2, k8.1, k7, k3, hmd, hmf, hvf, hsplit]
          simp [mainSend]
          rw [submit_run_append]
  · intro pkt rest st ha hv hc hm hdr hbuf hdec hmap
    exfalso
    have := hmap hc
    rw [hm] at this
    simp at this
  · intro pkt rest st m ha hv hc hm ho IH hdr hbuf hdec hmap
    have IH' := IH (by simp [mainPass, hdr]) (by simp [mainPass, hbuf])
      (by simp [mainPass, hdec]) (fun _ => by simp [mainPass, hm])
    obtain ⟨j1, j2, j3, j4, j5, j6, j7, j8⟩ := IH'
    rw [main_loop_eq_pass cfg pkt rest st m ha hv hc hm ho]
    have hvf := vid_frames_cons_other cfg pkt rest hv
    refine ⟨j1, j2, ?_, ?_, j5, j6, ?_, ?_⟩
    · rw [j3, hvf]
      simp [mainPass]
    · rw [j4, hvf]
      simp [mainPass]
    · rw [j7]
      simp [mainPass]
    · intro hcopy
      rw [hc] at hcopy
      cases hcopy
  · intro pkt rest st m ha hv hc hm ho IH hdr hbuf hdec hmap
    have IH' := IH (by simp [hdr]) (by simp [hbuf]) (by simp [hdec]) (fun _ => by simp [hm])
    obtain ⟨j1, j2, j3, j4, j5, j6, j7, j8⟩ := IH'
    rw [main_loop_eq_drop_unmapped cfg pkt rest st m ha hv hc hm ho]
    have hvf := vid_frames_cons_other cfg pkt rest hv
    refine ⟨j1, j2, ?_, ?_, j5, j6, ?_, ?_⟩
    · rw [j3, hvf]
      simp
    · rw [j4, hvf]
      simp
    · rw [j7]
      simp
    · intro hcopy
      rw [hc] at hcopy
      cases hcopy
  · intro pkt rest st ha hv hc IH hdr hbuf hdec hmap
    have IH' := IH (by simp [hdr]) (by simp [hbuf]) (by simp [hdec])
      (fun h => by rw [hc] at h; cases h)
    obtain ⟨j1, j2, j3, j4, j5, j6, j7, j8⟩ := IH'
    rw [main_loop_eq_drop cfg pkt rest st ha hv hc]
    have hvf := vid_frames_cons_other cfg pkt rest hv
    refine ⟨j1, j2, ?_, ?_, j5, j6, ?_, ?_⟩
    · rw [j3, hvf]
      simp
    · rw [j4, hvf]
      simp
    · rw [j7]
      simp
    · intro hcopy
      have j8' := j8 hcopy
      by_cases hb : cfg.benchmark = true
      · rw [if_pos hb] at j8' ⊢
        refine ⟨j8'.1.trans (by simp), j8'.2.trans (by simp)⟩
      · rw [if_neg hb] at j8' ⊢
        rw [hvf]
        constructor
        · rw [j8'.1]
          simp
        · rw [j8'.2]
          simp

theorem write_flushed_run (cfg : PFConfig) :
    ∀ (l : List VFrame) (st : PFState),
      st.enc.draining = false → st.enc.buffered = [] →
      (write_flushed cfg st l).1 = 0 ∧
      (write_flushed cfg st l).2.processed_frames = st.processed_frames + l.length ∧
      (write_flushed cfg st l).2.frame_idx = st.frame_idx + (l.length : Int) ∧
      (write_flushed cfg st l).2.mux.written = st.mux.written ++
        submit_run cfg.enc_time_base (st.mux.streams.getD cfg.out_vstream_idx ⟨1, 1⟩)
          cfg.out_vstream_idx st.frame_idx l ∧
      (write_flushed cfg st l).2.mux.streams = st.mux.streams ∧
      (write_flushed cfg st l).2.enc.draining = false ∧
      (write_flushed cfg st l).2.enc.buffered = [] ∧
      (write_flushed cfg st l).2.filt = st.filt := by
  intro l
  induction l with
  | nil =>
    intro st hdr hbuf
    rw [write_flushed]
    simp [submit_run, hdr, hbuf]
  | cons f rest ih =>
    intro st hdr hbuf
    have hspec := write_frame_spec cfg.enc_time_base cfg.enc_pix_fmt cfg.out_vstream_idx
      st.enc st.mux f st.frame_idx hdr
    rw [write_flushed]
    rw [show (st.emit PEv.submitFlush).enc = st.enc from rfl,
      show (st.emit PEv.submitFlush).mux = st.mux from rfl,
      show (st.emit PEv.submitFlush).frame_idx = st.frame_idx from rfl, hspec]
    simp only [show ¬((0 : Int) < 0) by decide, if_false]
    refine ⟨(ih _ rfl rfl).1, ?_, ?_, ?_, ?_, (ih _ rfl rfl).2.2.2.2.2.1,
      (ih _ rfl rfl).2.2.2.2.2.2.1, ?_⟩
    · exact ((ih _ rfl rfl).2.1).trans (by simp; omega)
    · exact ((ih _ rfl rfl).2.2.1).trans (by simp; ring)
    · exact ((ih _ rfl rfl).2.2.2.1).trans (by simp [hbuf, submit_run])
    · exact ((ih _ rfl rfl).2.2.2.2.1).trans (by simp)
    · exact ((ih _ rfl rfl).2.2.2.2.2.2.2).trans (by simp)

/-- The flush sequence from an idle encoder: status 0, one increment of
`processed_frames` per filter-buffered frame, and exactly the packets of
those frames written, sequence-numbered from the current counter. -/
theorem flush_tail_run (cfg : PFConfig) (st : PFState)
    (hdr : st.enc.draining = false) (hbuf : st.enc.buffered = []) :
    (flush_tail cfg st).1 = 0 ∧
    (flush_tail cfg st).2.processed_frames =
      st.processed_frames + st.filt.buffered.length ∧
    (flush_tail cfg st).2.mux.streams = st.mux.streams ∧
    (flush_tail cfg st).2.mux.written = st.mux.written ++
      submit_run cfg.enc_time_base (st.mux.streams.getD cfg.out_vstream_idx ⟨1, 1⟩)
        cfg.out_vstream_idx st.frame_idx st.filt.buffered := by
  rw [flush_tail]
  have h0 : (Filter.flush st.filt).1.1 = (0 : Int) := rfl
  rw [h0, if_neg (by decide : ¬((0 : Int) < 0))]
  have hrun := write_flushed_run cfg (Filter.flush st.filt).1.2
    ((({ st with filt := (Filter.flush st.filt).2 }).emit PEv.filterFlush))
    (by simpa using hdr) (by simpa using hbuf)
  obtain ⟨j1, j2, j3, j4, j5, j6, j7, j8⟩ := hrun
  rw [if_neg (by omega)]
  have hfl : (Filter.flush st.filt).1.2 = st.filt.buffered := rfl
  refine ⟨?_, ?_, ?_, ?_⟩
  · simp only [PFState.emit_enc]
    rw [flush_spec cfg.enc_time_base cfg.out_vstream_idx _ _ j6]
  · simp only [PFState.emit_processed]
    rw [j2, hfl]
    simp
  · simp only [PFState.emit_enc, PFState.emit_mux]
    rw [flush_spec cfg.enc_time_base cfg.out_vstream_idx _ _ j6]
    simp only []
    rw [j5]
    simp
  · simp only [PFState.emit_enc, PFState.emit_mux]
    rw [flush_spec cfg.enc_time_base cfg.out_vstream_idx _ _ j6]
    simp only []
    rw [j7, j4, hfl]
    simp

/-- Full characterisation of `process_frames` with no pause and no abort
scheduled, from a fresh pipeline state: processing succeeds,
`processed_frames` grows by one per filter output plus one per
filter-flushed frame, and — in normal mode without stream copying — the
muxer receives exactly the packets of the loop outputs followed by the
flushed frames, sequence-numbered from the initial counter. -/
theorem process_frames_run (cfg : PFConfig) (habort : cfg.abortL = [])
    (hpause : cfg.pauseL = []) (input : List VPacket) (st : PFState)
    (hdr : st.enc.draining = false) (hbuf : st.enc.buffered = []) (hdec : st.dec = [])
    (hmap : cfg.copy_streams = true → st.stream_map.isSome = true) :
    (process_frames cfg input st).1 = 0 ∧
    (process_frames cfg input st).2.processed_frames =
      st.processed_frames + (filt_run st.filt (vid_frames cfg input)).1.length +
        (filt_run st.filt (vid_frames cfg input)).2.buffered.length ∧
    (cfg.copy_streams = false → cfg.benchmark = false →
      (process_frames cfg input st).2.mux.written = st.mux.written ++
        submit_run cfg.enc_time_base (st.mux.streams.getD cfg.out_vstream_idx ⟨1, 1⟩)
          cfg.out_vstream_idx st.frame_idx
          ((filt_run st.filt (vid_frames cfg input)).1 ++
            (filt_run st.filt (vid_frames cfg input)).2.buffered)) := by
  obtain ⟨k1, k2, k3, k4, k5, k6, k7, k8⟩ := main_loop_run cfg habort hpause input st
    hdr hbuf hdec hmap
  rw [process_frames]
  rw [if_neg (by omega)]
  obtain ⟨f1, f2, f3, f4⟩ := flush_tail_run cfg (main_loop cfg input st).2 k5 k6
  refine ⟨f1, ?_, ?_⟩
  · rw [f2, k4, k3]
  · intro hcopy hbench
    have k8' := k8 hcopy
    rw [if_neg (by simp [hbench])] at k8'
    rw [f4, k8'.2, k8'.1, k7, k3]
    rw [submit_run_append]
    simp

/-! ## Claim C1 -/

/-- C1: a frame submitted with unset pts (`<= 0`) is written with the
caller's monotonic sequence number as its presentation timestamp — in
general, the packet appended for such a frame carries `frame_idx` as
pts/dts — and a 10-frame run whose decoded frames all carry pts 0 writes
output pts exactly 0,1,...,9 in order. -/
theorem c1_pts_fallback :
    (∀ (tb : AVRational) (pix : Int) (vidx : Nat) (enc : EncCodecState) (mux : MuxState)
      (f : VFrame) (i : Int), enc.draining = false → f.pts ≤ 0 →
      (Encoder.write_frame tb pix vidx enc mux f i).2.2.written =
        mux.written ++ ((enc.buffered ++ [({ pts := i, dts := i, stream_index := 0 } : VPacket)]).map
          (rescale_tag tb (mux.streams.getD vidx ⟨1, 1⟩) (vidx : Int)))) ∧
    ((process_frames cfgC1 inputC1 stC1).2.mux.written.map (fun p => p.pts) =
      [0, 1, 2, 3, 4, 5, 6, 7, 8, 9]) := by
  constructor
  · intro tb pix vidx enc mux f i hdr hp
    rw [write_frame_spec tb pix vidx enc mux f i hdr]
    simp [hp]
  · have h := (process_frames_run cfgC1 rfl rfl inputC1 stC1 rfl rfl rfl
      (fun hc => by simp [cfgC1] at hc)).2.2 rfl rfl
    rw [h]
    decide

theorem c1_pts_fallback_witness :
    (Encoder.write_frame tb25 0 0 ⟨[], false⟩ ⟨[tb25], []⟩ ⟨0, 0⟩ 5).2.2.written =
      [⟨5, 5, 0⟩] := by
  have h := c1_pts_fallback.1 tb25 0 0 ⟨[], false⟩ ⟨[tb25], []⟩ ⟨0, 0⟩ 5 rfl (by decide)
  rw [h]
  decide

/-! ## Claim C3 -/

theorem inner_loop_no_submit (cfg : PFConfig) (hb : cfg.benchmark = true) :
    ∀ (st : PFState) (t : Nat), (t, PEv.submitLoop) ∈ (inner_loop cfg st).2.events →
      (t, PEv.submitLoop) ∈ st.events := by
  refine inner_loop_rec cfg (fun st => ∀ t,
      (t, PEv.submitLoop) ∈ (inner_loop cfg st).2.events → (t, PEv.submitLoop) ∈ st.events)
    ?_ ?_ ?_ ?_ ?_ ?_ ?_
  · intro st ha t h
    rw [inner_loop_eq_abort cfg st ha] at h
    simpa using h
  · intro st ha hp IH t h
    rw [inner_loop_eq_pause cfg st ha hp] at h
    have := IH t h
    simpa [stepPause] using this
  · intro st ha hp hd t h
    rw [inner_loop_eq_nil cfg st ha hp hd] at h
    simpa using h
  · intro st f rest F' ha hp hd hf IH t h
    rw [inner_loop_eq_none cfg st f rest F' ha hp hd hf] at h
    have := IH t h
    simpa [stepNone, stepRecv] using this
  · intro st f rest pf F' ha hp hd hf hbench IH t h
    rw [inner_loop_eq_bench cfg st f rest pf F' ha hp hd hf hbench] at h
    have := IH t h
    simpa [stepBench, stepRecv] using this
  · intro st f rest pf F' enc' mux' ha hp hd hf hbench hw IH t h
    rw [hbench] at hb
    cases hb
  · intro st f rest pf F' e enc' mux' ha hp hd hf hbench hw he t h
    rw [hbench] at hb
    cases hb

theorem main_loop_no_submit (cfg : PFConfig) (hb : cfg.benchmark = true) :
    ∀ (input : List VPacket) (st : PFState) (t : Nat),
      (t, PEv.submitLoop) ∈ (main_loop cfg input st).2.events →
      (t, PEv.submitLoop) ∈ st.events := by
  refine main_loop_rec cfg (fun input st => ∀ t,
      (t, PEv.submitLoop) ∈ (main_loop cfg input st).2.events →
      (t, PEv.submitLoop) ∈ st.events) ?_ ?_ ?_ ?_ ?_ ?_ ?_ ?_
  · intro input st ha t h
    rw [main_loop_eq_abort cfg input st ha] at h
    simpa using h
  · intro st ha t h
    rw [main_loop_eq_nil cfg st ha] at h
    simpa using h
  · intro pkt rest st ha hv he t h
    rw [main_loop_eq_video_err cfg pkt rest st ha hv he] at h
    have := inner_loop_no_submit cfg hb (mainSend cfg st pkt) t h
    simpa [mainSend] using this
  · intro pkt rest st ha hv he IH t h
    rw [main_loop_eq_video cfg pkt rest st ha hv he] at h
    have h2 := IH t h
    have h3 := inner_loop_no_submit cfg hb (mainSend cfg st pkt) t h2
    simpa [mainSend] using h3
  · intro pkt rest st ha hv hc hm t h
    rw [main_loop_eq_null_map cfg pkt rest st ha hv hc hm] at h
    simpa using h
  · intro pkt rest st m ha hv hc hm ho IH t h
    rw [main_loop_eq_pass cfg pkt rest st m ha hv hc hm ho] at h
    have := IH t h
    simpa [mainPass] using this
  · intro pkt rest st m ha hv hc hm ho IH t h
    rw [main_loop_eq_drop_unmapped cfg pkt rest st m ha hv hc hm ho] at h
    have := IH t h
    simpa using this
  · intro pkt rest st ha hv hc IH t h
    rw [main_loop_eq_drop cfg pkt rest st ha hv hc] at h
    have := IH t h
    simpa using this

theorem write_flushed_no_submit (cfg : PFConfig) :
    ∀ (l : List VFrame) (st : PFState) (t : Nat),
      (t, PEv.submitLoop) ∈ (write_flushed cfg st l).2.events →
      (t, PEv.submitLoop) ∈ st.events := by
  intro l
  induction l with
  | nil =>
    intro st t h
    rw [write_flushed] at h
    exact h
  | cons f rest ih =>
    intro st t h
    rw [write_flushed] at h
    simp only [PFState.emit_enc, PFState.emit_mux, PFState.emit_frame_idx] at h
    by_cases hw : (Encoder.write_frame cfg.enc_time_base cfg.enc_pix_fmt cfg.out_vstream_idx
        st.enc st.mux f st.frame_idx).1 < 0
    · rw [if_pos hw] at h
      simpa using h
    · rw [if_neg hw] at h
      simpa using ih _ t h

theorem process_frames_no_submit (cfg : PFConfig) (hb : cfg.benchmark = true)
    (input : List VPacket) (st : PFState) (t : Nat)
    (h : (t, PEv.submitLoop) ∈ (process_frames cfg input st).2.events) :
    (t, PEv.submitLoop) ∈ st.events := by
  rw [process_frames] at h
  by_cases hm : (main_loop cfg input st).1 < 0
  · rw [if_pos hm] at h
    exact main_loop_no_submit cfg hb input st t h
  · rw [if_neg hm] at h
    rw [flush_tail] at h
    by_cases hf : (Filter.flush (main_loop cfg input st).2.filt).1.1 < 0
    · rw [if_pos hf] at h
      have := main_loop_no_submit cfg hb input st t (by simpa using h)
      exact this
    · rw [if_neg hf] at h
      by_cases hw : (write_flushed cfg ((({ (main_loop cfg input st).2 with
          filt := (Filter.flush (main_loop cfg input st).2.filt).2 }).emit PEv.filterFlush))
          (Filter.flush (main_loop cfg input st).2.filt).1.2).1 < 0
      · rw [if_pos hw] at h
        have h2 := write_flushed_no_submit cfg _ _ t h
        exact main_loop_no_submit cfg hb input st t (by simpa using h2)
      · rw [if_neg hw] at h
        simp only [PFState.emit_events] at h
        have h2 : (t, PEv.submitLoop) ∈ (write_flushed cfg
            ((({ (main_loop cfg input st).2 with
              filt := (Filter.flush (main_loop cfg input st).2.filt).2 }).emit PEv.filterFlush))
            (Filter.flush (main_loop cfg input st).2.filt).1.2).2.events := by
          simpa using h
        have h3 := write_flushed_no_submit cfg _ _ t h2
        exact main_loop_no_submit cfg hb input st t (by simpa using h3)

/-- C3: after a complete (no-abort) run from a fresh pipeline state,
`processed_frames` has grown by exactly the number of frames the decoder
produced for the designated video stream — in benchmark mode the loop
performs no encode-stage submission (no `submitLoop` event is added), yet
the counter still advances once per filter output and once per
filter-flushed frame; in normal mode the number of packets actually
encoded and written for the video stream equals the same count. -/
theorem c3_processed_count (cfg : PFConfig) (input : List VPacket) (st : PFState)
    (ha : cfg.abortL = []) (hp : cfg.pauseL = [])
    (hdr : st.enc.draining = false) (hbuf : st.enc.buffered = []) (hdec : st.dec = [])
    (hfilt : st.filt.buffered = [])
    (hmap : cfg.copy_streams = true → st.stream_map.isSome = true) :
    (process_frames cfg input st).2.processed_frames =
      st.processed_frames + (vid_frames cfg input).length ∧
    (cfg.benchmark = true → ∀ t, (t, PEv.submitLoop) ∈ (process_frames cfg input st).2.events →
      (t, PEv.submitLoop) ∈ st.events) ∧
    (cfg.benchmark = false → cfg.copy_streams = false →
      (process_frames cfg input st).2.mux.written.length =
        st.mux.written.length + (vid_frames cfg input).length) := by
  obtain ⟨r1, r2, r3⟩ := process_frames_run cfg ha hp input st hdr hbuf hdec hmap
  have hcons := filt_run_conserve (vid_frames cfg input) st.filt
  rw [hfilt] at hcons
  simp only [List.length_nil] at hcons
  refine ⟨?_, fun hb t h => process_frames_no_submit cfg hb input st t h, ?_⟩
  · rw [r2]
    omega
  · intro hb hc
    rw [r3 hc hb]
    simp only [List.length_append, submit_run_length]
    omega

theorem c3_processed_count_witness :
    (process_frames cfgC1 inputC1 stC1).2.processed_frames = 10 :=
  ((c3_processed_count cfgC1 inputC1 stC1 rfl rfl rfl rfl rfl rfl
    (fun hc => by simp [cfgC1] at hc)).1).trans (by decide)

/-! ## Claim C9 -/

theorem write_frame_tagged (tb : AVRational) (pix : Int) (vidx : Nat)
    (enc : EncCodecState) (mux : MuxState) (f : VFrame) (i : Int)
    (hmux : ∀ p ∈ mux.written, p.stream_index = (vidx : Int)) :
    ∀ p ∈ (Encoder.write_frame tb pix vidx enc mux f i).2.2.written,
      p.stream_index = (vidx : Int) := by
  by_cases hdr : enc.draining = true
  · rw [write_frame_draining tb pix vidx enc mux f i hdr]
    exact hmux
  · rw [write_frame_spec tb pix vidx enc mux f i (bool_eq_false hdr)]
    intro p hp
    simp at hp
    rcases hp with hp | hp | hp
    · exact hmux p hp
    · obtain ⟨q, hq, hpq⟩ := hp
      rw [← hpq]
      simp [rescale_tag]
    · rw [hp]
      simp [rescale_tag]

theorem flush_tagged (tb : AVRational) (vidx : Nat) (enc : EncCodecState) (mux : MuxState)
    (hmux : ∀ p ∈ mux.written, p.stream_index = (vidx : Int)) :
    ∀ p ∈ (Encoder.flush tb vidx enc mux).2.2.written, p.stream_index = (vidx : Int) := by
  by_cases hdr : enc.draining = true
  · rw [flush_draining tb vidx enc mux hdr]
    exact hmux
  · rw [flush_spec tb vidx enc mux (bool_eq_false hdr)]
    intro p hp
    simp at hp
    rcases hp with hp | hp
    · exact hmux p hp
    · obtain ⟨q, hq, hpq⟩ := hp
      rw [← hpq]
      simp [rescale_tag]

theorem inner_loop_tagged (cfg : PFConfig) :
    ∀ st : PFState, (∀ p ∈ st.mux.written, p.stream_index = (cfg.out_vstream_idx : Int)) →
      ∀ p ∈ (inner_loop cfg st).2.mux.written, p.stream_index = (cfg.out_vstream_idx : Int) := by
  refine inner_loop_rec cfg (fun st =>
      (∀ p ∈ st.mux.written, p.stream_index = (cfg.out_vstream_idx : Int)) →
      ∀ p ∈ (inner_loop cfg st).2.mux.written, p.stream_index = (cfg.out_vstream_idx : Int))
    ?_ ?_ ?_ ?_ ?_ ?_ ?_
  · intro st ha hmux
    rw [inner_loop_eq_abort cfg st ha]
    exact hmux
  · intro st ha hp IH hmux
    rw [inner_loop_eq_pause cfg st ha hp]
    exact IH (by simpa [stepPause] using hmux)
  · intro st ha hp hd hmux
    rw [inner_loop_eq_nil cfg st ha hp hd]
    exact hmux
  · intro st f rest F' ha hp hd hf IH hmux
    rw [inner_loop_eq_none cfg st f rest F' ha hp hd hf]
    exact IH (by simpa [stepNone, stepRecv] using hmux)
  · intro st f rest pf F' ha hp hd hf hb IH hmux
    rw [inner_loop_eq_bench cfg st f rest pf F' ha hp hd hf hb]
    exact IH (by simpa [stepBench, stepRecv] using hmux)
  · intro st f rest pf F' enc' mux' ha hp hd hf hb hw IH hmux
    rw [inner_loop_eq_write cfg st f rest pf F' enc' mux' ha hp hd hf hb hw]
    refine IH ?_
    have htag := write_frame_tagged cfg.enc_time_base cfg.enc_pix_fmt cfg.out_vstream_idx
      st.enc st.mux pf st.frame_idx hmux
    rw [hw] at htag
    simpa [stepWrite, stepNone, stepRecv] using htag
  · intro st f rest pf F' e enc' mux' ha hp hd hf hb hw he hmux
    rw [inner_loop_eq_write_err cfg st f rest pf F' e enc' mux' ha hp hd hf hb hw he]
    have htag := write_frame_tagged cfg.enc_time_base cfg.enc_pix_fmt cfg.out_vstream_idx
      st.enc st.mux pf st.frame_idx hmux
    rw [hw] at htag
    simpa [stepWriteErr, stepNone, stepRecv] using htag

theorem main_loop_nocopy (cfg : PFConfig) (hc : cfg.copy_streams = false) :
    ∀ (input : List VPacket) (st : PFState),
      (main_loop cfg input st).2.fault = st.fault ∧
      ((∀ p ∈ st.mux.written, p.stream_index = (cfg.out_vstream_idx : Int)) →
        ∀ p ∈ (main_loop cfg input st).2.mux.written,
          p.stream_index = (cfg.out_vstream_idx : Int)) := by
  refine main_loop_rec cfg (fun input st =>
      (main_loop cfg input st).2.fault = st.fault ∧
      ((∀ p ∈ st.mux.written, p.stream_index = (cfg.out_vstream_idx : Int)) →
        ∀ p ∈ (main_loop cfg input st).2.mux.written,
          p.stream_index = (cfg.out_vstream_idx : Int)))
    ?_ ?_ ?_ ?_ ?_ ?_ ?_ ?_
  · intro input st ha
    rw [main_loop_eq_abort cfg input st ha]
    exact ⟨by simp, fun h => by simpa using h⟩
  · intro st ha
    rw [main_loop_eq_nil cfg st ha]
    exact ⟨by simp, fun h => by simpa using h⟩
  · intro pkt rest st ha hv he
    rw [main_loop_eq_video_err cfg pkt rest st ha hv he]
    constructor
    · rw [(inner_loop_stable cfg (mainSend cfg st pkt)).2.1]
      simp [mainSend]
    · intro hmux
      exact inner_loop_tagged cfg (mainSend cfg st pkt) (by simpa [mainSend] using hmux)
  · intro pkt rest st ha hv he IH
    rw [main_loop_eq_video cfg pkt rest st ha hv he]
    constructor
    · rw [IH.1, (inner_loop_stable cfg (mainSend cfg st pkt)).2.1]
      simp [mainSend]
    · intro hmux
      exact IH.2 (inner_loop_tagged cfg (mainSend cfg st pkt) (by simpa [mainSend] using hmux))
  · intro pkt rest st ha hv hcopy hm
    rw [hcopy] at hc
    cases hc
  · intro pkt rest st m ha hv hcopy hm ho IH
    rw [hcopy] at hc
    cases hc
  · intro pkt rest st m ha hv hcopy hm ho IH
    rw [hcopy] at hc
    cases hc
  · intro pkt rest st ha hv hcopy IH
    rw [main_loop_eq_drop cfg pkt rest st ha hv hcopy]
    exact ⟨IH.1.trans (by simp), fun hmux => IH.2 (by simpa using hmux)⟩

theorem write_flushed_fault_tagged (cfg : PFConfig) :
    ∀ (l : List VFrame) (st : PFState),
      (write_flushed cfg st l).2.fault = st.fault ∧
      ((∀ p ∈ st.mux.written, p.stream_index = (cfg.out_vstream_idx : Int)) →
        ∀ p ∈ (write_flushed cfg st l).2.mux.written,
          p.stream_index = (cfg.out_vstream_idx : Int)) := by
  intro l
  induction l with
  | nil =>
    intro st
    rw [write_flushed]
    exact ⟨rfl, fun h => h⟩
  | cons f rest ih =>
    intro st
    rw [write_flushed]
    simp only [PFState.emit_enc, PFState.emit_mux, PFState.emit_frame_idx]
    by_cases hw : (Encoder.write_frame cfg.enc_time_base cfg.enc_pix_fmt cfg.out_vstream_idx
        st.enc st.mux f st.frame_idx).1 < 0
    · rw [if_pos hw]
      constructor
      · simp
      · intro hmux
        have := write_frame_tagged cfg.enc_time_base cfg.enc_pix_fmt cfg.out_vstream_idx
          st.enc st.mux f st.frame_idx hmux
        simpa using this
    · rw [if_neg hw]
      constructor
      · exact (ih _).1.trans (by simp)
      · intro hmux
        refine (ih _).2 ?_
        have := write_frame_tagged cfg.enc_time_base cfg.enc_pix_fmt cfg.out_vstream_idx
          st.enc st.mux f st.frame_idx hmux
        simpa using this

theorem flush_tail_fault_tagged (cfg : PFConfig) (st : PFState) :
    (flush_tail cfg st).2.fault = st.fault ∧
    ((∀ p ∈ st.mux.written, p.stream_index = (cfg.out_vstream_idx : Int)) →
      ∀ p ∈ (flush_tail cfg st).2.mux.written,
        p.stream_index = (cfg.out_vstream_idx : Int)) := by
  rw [flush_tail]
  have h0 : (Filter.flush st.filt).1.1 = (0 : Int) := rfl
  rw [h0, if_neg (by decide : ¬((0 : Int) < 0))]
  set st1 := (({ st with filt := (Filter.flush st.filt).2 }).emit PEv.filterFlush) with hst1
  have hwf := write_flushed_fault_tagged cfg (Filter.flush st.filt).1.2 st1
  by_cases hw : (write_flushed cfg st1 (Filter.flush st.filt).1.2).1 < 0
  · rw [if_pos hw]
    constructor
    · exact hwf.1.trans (by rw [hst1]; simp)
    · intro hmux
      exact hwf.2 (by rw [hst1]; simpa using hmux)
  · rw [if_neg hw]
    constructor
    · simp only [PFState.emit_fault]
      exact hwf.1.trans (by rw [hst1]; simp)
    · intro hmux
      simp only [PFState.emit_enc, PFState.emit_mux]
      have := flush_tagged cfg.enc_time_base cfg.out_vstream_idx
        (write_flushed cfg st1 (Filter.flush st.filt).1.2).2.enc
        (write_flushed cfg st1 (Filter.flush st.filt).1.2).2.mux
        (hwf.2 (by rw [hst1]; simpa using hmux))
      simpa using this

/-- C9: the stream map is allocated exactly when copy-streams is enabled
(`stream_map_` stays null otherwise), and with copy-streams disabled the
control loop never dereferences the null map: no run faults, and every
packet written to the output belongs to the output video stream — non-video
packets are discarded without side effects. -/
theorem c9_null_map_safety :
    (∀ (c : Bool) (vout : OutStreamS) (streams : List InStream) (vidx : Nat),
      (encoder_init_streams c vout streams vidx).stream_map.isSome = c) ∧
    (∀ (cfg : PFConfig) (input : List VPacket) (st : PFState), cfg.copy_streams = false →
      (process_frames cfg input st).2.fault = st.fault) ∧
    (∀ (cfg : PFConfig) (input : List VPacket) (st : PFState), cfg.copy_streams = false →
      (∀ p ∈ st.mux.written, p.stream_index = (cfg.out_vstream_idx : Int)) →
      ∀ p ∈ (process_frames cfg input st).2.mux.written,
        p.stream_index = (cfg.out_vstream_idx : Int)) := by
  refine ⟨?_, ?_, ?_⟩
  · intro c vout streams vidx
    cases c <;> simp [encoder_init_streams]
  · intro cfg input st hc
    rw [process_frames]
    by_cases h : (main_loop cfg input st).1 < 0
    · rw [if_pos h]
      exact (main_loop_nocopy cfg hc input st).1
    · rw [if_neg h]
      exact (flush_tail_fault_tagged cfg _).1.trans (main_loop_nocopy cfg hc input st).1
  · intro cfg input st hc hmux
    rw [process_frames]
    by_cases h : (main_loop cfg input st).1 < 0
    · rw [if_pos h]
      exact (main_loop_nocopy cfg hc input st).2 hmux
    · rw [if_neg h]
      exact (flush_tail_fault_tagged cfg _).2 ((main_loop_nocopy cfg hc input st).2 hmux)

theorem c9_null_map_safety_witness :
    (encoder_init_streams false ⟨⟨MediaType.video, 0, 11⟩, tb25⟩
      [⟨⟨MediaType.video, 4, 21⟩, tb25⟩] 0).stream_map.isSome = false ∧
    (process_frames cfgC1 inputC1 stC1).2.fault = false :=
  ⟨c9_null_map_safety.1 false ⟨⟨MediaType.video, 0, 11⟩, tb25⟩ [⟨⟨MediaType.video, 4, 21⟩, tb25⟩] 0,
    (c9_null_map_safety.2.1 cfgC1 inputC1 stC1 rfl).trans rfl⟩

/-! ## Event traces of the named loop steps -/

theorem stepPause_events (st : PFState) :
    (stepPause st).events = st.events ++
      [(st.tick, PEv.pollAbort false), (st.tick + 1, PEv.pollPause true),
        (st.tick + 2, PEv.sleep)] := by
  simp [stepPause]

theorem stepRecv_events (st : PFState) (rest : List VFrame) :
    (stepRecv st rest).events = st.events ++
      [(st.tick, PEv.pollAbort false), (st.tick + 1, PEv.pollPause false),
        (st.tick + 2, PEv.recvFrame)] := by
  simp [stepRecv]

theorem stepNone_events (st : PFState) (rest : List VFrame) (F' : FilterS) :
    (stepNone st rest F').events = st.events ++
      [(st.tick, PEv.pollAbort false), (st.tick + 1, PEv.pollPause false),
        (st.tick + 2, PEv.recvFrame)] :=
  stepRecv_events st rest

theorem stepBench_events (st : PFState) (rest : List VFrame) (F' : FilterS) :
    (stepBench st rest F').events = st.events ++
      [(st.tick, PEv.pollAbort false), (st.tick + 1, PEv.pollPause false),
        (st.tick + 2, PEv.recvFrame)] :=
  stepRecv_events st rest

theorem stepWrite_events (st : PFState) (rest : List VFrame) (F' : FilterS)
    (enc' : EncCodecState) (mux' : MuxState) :
    (stepWrite st rest F' enc' mux').events = st.events ++
      [(st.tick, PEv.pollAbort false), (st.tick + 1, PEv.pollPause false),
        (st.tick + 2, PEv.recvFrame), (st.tick + 3, PEv.submitLoop)] := by
  simp [stepWrite, stepNone, stepRecv]

theorem stepWriteErr_events (st : PFState) (rest : List VFrame) (F' : FilterS)
    (enc' : EncCodecState) (mux' : MuxState) :
    (stepWriteErr st rest F' enc' mux').events = st.events ++
      [(st.tick, PEv.pollAbort false), (st.tick + 1, PEv.pollPause false),
        (st.tick + 2, PEv.recvFrame), (st.tick + 3, PEv.submitLoop)] := by
  simp [stepWriteErr, stepNone, stepRecv]

theorem mainSend_events (cfg : PFConfig) (st : PFState) (pkt : VPacket) :
    (mainSend cfg st pkt).events = st.events ++
      [(st.tick, PEv.pollAbort false), (st.tick + 1, PEv.sendPacket)] := by
  simp [mainSend]

theorem mainPass_events (st : PFState) (q : VPacket) :
    (mainPass st q).events = st.events ++ [(st.tick, PEv.pollAbort false)] := by
  simp [mainPass]

/-! ## Claim C8: the pause polling discipline of the inner receive loop -/

/-- Pause-polling discipline of an event trace: a decoded frame is
received only right after an abort poll that read false (two ticks
earlier) and a pause poll that read false (one tick earlier); a pause
poll that read true is followed one polling interval later by a sleep;
and a sleep happens only right after a pause poll that read true. -/
def PauseOk (l : List (Nat × PEv)) : Prop :=
  (∀ t, (t, PEv.recvFrame) ∈ l → (t - 1, PEv.pollPause false) ∈ l) ∧
  (∀ t, (t, PEv.recvFrame) ∈ l → (t - 2, PEv.pollAbort false) ∈ l) ∧
  (∀ t, (t, PEv.pollPause true) ∈ l → (t + 1, PEv.sleep) ∈ l) ∧
  (∀ t, (t, PEv.sleep) ∈ l → (t - 1, PEv.pollPause true) ∈ l)

theorem pauseOk_extend (l m : List (Nat × PEv)) (hl : PauseOk l)
    (h1 : ∀ t, (t, PEv.recvFrame) ∈ m → (t - 1, PEv.pollPause false) ∈ l ++ m)
    (h2 : ∀ t, (t, PEv.recvFrame) ∈ m → (t - 2, PEv.pollAbort false) ∈ l ++ m)
    (h3 : ∀ t, (t, PEv.pollPause true) ∈ m → (t + 1, PEv.sleep) ∈ l ++ m)
    (h4 : ∀ t, (t, PEv.sleep) ∈ m → (t - 1, PEv.pollPause true) ∈ l ++ m) :
    PauseOk (l ++ m) := by
  refine ⟨fun t ht => ?_, fun t ht => ?_, fun t ht => ?_, fun t ht => ?_⟩ <;>
    rcases List.mem_append.mp ht with h | h
  · exact List.mem_append_left _ (hl.1 t h)
  · exact h1 t h
  · exact List.mem_append_left _ (hl.2.1 t h)
  · exact h2 t h
  · exact List.mem_append_left _ (hl.2.2.1 t h)
  · exact h3 t h
  · exact List.mem_append_left _ (hl.2.2.2 t h)
  · exact h4 t h

/-- Every iteration of the inner receive loop preserves the pause-polling
discipline of the event trace. -/
theorem inner_loop_pause_ok (cfg : PFConfig) :
    ∀ st, PauseOk st.events → PauseOk (inner_loop cfg st).2.events := by
  refine inner_loop_rec cfg
    (fun s => PauseOk s.events → PauseOk (inner_loop cfg s).2.events)
    ?_ ?_ ?_ ?_ ?_ ?_ ?_
  · intro s ha hok
    rw [inner_loop_eq_abort cfg s ha]
    show PauseOk (s.emit (PEv.pollAbort true)).events
    rw [PFState.emit_events]
    refine pauseOk_extend _ _ hok ?_ ?_ ?_ ?_ <;> intro t ht <;> simp at ht
  · intro s ha hp IH hok
    rw [inner_loop_eq_pause cfg s ha hp]
    refine IH ?_
    rw [stepPause_events]
    refine pauseOk_extend _ _ hok ?_ ?_ ?_ ?_
    · intro t ht
      simp at ht
    · intro t ht
      simp at ht
    · intro t ht
      simp at ht
      subst ht
      simp
    · intro t ht
      simp at ht
      subst ht
      simp
  · intro s ha hp hd hok
    rw [inner_loop_eq_nil cfg s ha hp hd]
    show PauseOk (((s.emit (PEv.pollAbort false)).emit (PEv.pollPause false)).emit
      PEv.recvFrame).events
    have hev : (((s.emit (PEv.pollAbort false)).emit (PEv.pollPause false)).emit
        PEv.recvFrame).events = s.events ++
        [(s.tick, PEv.pollAbort false), (s.tick + 1, PEv.pollPause false),
          (s.tick + 2, PEv.recvFrame)] := by
      simp
    rw [hev]
    refine pauseOk_extend _ _ hok ?_ ?_ ?_ ?_
    · intro t ht
      simp at ht
      subst ht
      simp
    · intro t ht
      simp at ht
      subst ht
      simp
    · intro t ht
      simp at ht
    · intro t ht
      simp at ht
  · intro s f rest F' ha hp hd hf IH hok
    rw [inner_loop_eq_none cfg s f rest F' ha hp hd hf]
    refine IH ?_
    rw [stepNone_events]
    refine pauseOk_extend _ _ hok ?_ ?_ ?_ ?_
    · intro t ht
      simp at ht
      subst ht
      simp
    · intro t ht
      simp at ht
      subst ht
      simp
    · intro t ht
      simp at ht
    · intro t ht
      simp at ht
  · intro s f rest pf F' ha hp hd hf hb IH hok
    rw [inner_loop_eq_bench cfg s f rest pf F' ha hp hd hf hb]
    refine IH ?_
    rw [stepBench_events]
    refine pauseOk_extend _ _ hok ?_ ?_ ?_ ?_
    · intro t ht
      simp at ht
      subst ht
      simp
    · intro t ht
      simp at ht
      subst ht
      simp
    · intro t ht
      simp at ht
    · intro t ht
      simp at ht
  · intro s f rest pf F' enc' mux' ha hp hd hf hb hw IH hok
    rw [inner_loop_eq_write cfg s f rest pf F' enc' mux' ha hp hd hf hb hw]
    refine IH ?_
    rw [stepWrite_events]
    refine pauseOk_extend _ _ hok ?_ ?_ ?_ ?_
    · intro t ht
      simp at ht
      subst ht
      simp
    · intro t ht
      simp at ht
      subst ht
      simp
    · intro t ht
      simp at ht
    · intro t ht
      simp at ht
  · intro s f rest pf F' e enc' mux' ha hp hd hf hb hw he hok
    rw [inner_loop_eq_write_err cfg s f rest pf F' e enc' mux' ha hp hd hf hb hw he]
    show PauseOk (stepWriteErr s rest F' enc' mux').events
    rw [stepWriteErr_events]
    refine pauseOk_extend _ _ hok ?_ ?_ ?_ ?_
    · intro t ht
      simp at ht
      subst ht
      simp
    · intro t ht
      simp at ht
      subst ht
      simp
    · intro t ht
      simp at ht
    · intro t ht
      simp at ht

/-- C8: while the per-packet inner receive loop is active, a decoded frame
is received only right after an abort poll that read false and a pause poll
that read false; a pause poll that read true is followed one fixed polling
interval later by a sleep (bounded polling, no busy-spin); and every sleep
is accounted for by a pause poll that read true — so while `pause` is set
the loop makes no receive call and suspends one sleep per poll until the
flag clears or `abort` is set. -/
theorem c8_pause_polling (cfg : PFConfig) (st : PFState) (hev : st.events = []) :
    (∀ t, (t, PEv.recvFrame) ∈ (inner_loop cfg st).2.events →
      (t - 1, PEv.pollPause false) ∈ (inner_loop cfg st).2.events) ∧
    (∀ t, (t, PEv.recvFrame) ∈ (inner_loop cfg st).2.events →
      (t - 2, PEv.pollAbort false) ∈ (inner_loop cfg st).2.events) ∧
    (∀ t, (t, PEv.pollPause true) ∈ (inner_loop cfg st).2.events →
      (t + 1, PEv.sleep) ∈ (inner_loop cfg st).2.events) ∧
    (∀ t, (t, PEv.sleep) ∈ (inner_loop cfg st).2.events →
      (t - 1, PEv.pollPause true) ∈ (inner_loop cfg st).2.events) :=
  inner_loop_pause_ok cfg st (by
    rw [hev]
    exact ⟨fun t ht => absurd ht (List.not_mem_nil _),
      fun t ht => absurd ht (List.not_mem_nil _),
      fun t ht => absurd ht (List.not_mem_nil _),
      fun t ht => absurd ht (List.not_mem_nil _)⟩)

/-- Configuration of the C8 scenario: the pause flag reads true at the
second poll and false afterwards; no abort, nothing to decode. -/
def cfgC8 : PFConfig :=
  { cfgC1 with pauseL := [false, true] }

theorem c8_pause_polling_witness :
    ((1 : Nat), PEv.pollPause true) ∈ (inner_loop cfgC8 stC1).2.events ∧
    ((2 : Nat), PEv.sleep) ∈ (inner_loop cfgC8 stC1).2.events := by
  have e1 := inner_loop_eq_pause cfgC8 stC1 (by decide) (by decide)
  have e2 := inner_loop_eq_nil cfgC8 (stepPause stC1) (by decide) (by decide) (by decide)
  have h := (c8_pause_polling cfgC8 stC1 rfl).2.2.1
  constructor
  · rw [e1, e2]
    decide
  · exact h 1 (by rw [e1, e2]; decide)

/-! ## Claim C2: the abort flag and the unconditional flush sequence -/

/-- An event that issues no new work to the decode/filter/encode pipeline
of the read loop (abort and pause polls, sleeps and the flush-phase events
qualify; packet sends, frame receives and loop submissions do not). -/
def SafeEv (e : PEv) : Prop :=
  e ≠ PEv.sendPacket ∧ e ≠ PEv.recvFrame ∧ e ≠ PEv.submitLoop

/-- After any abort poll that read true, the trace issues no further
pipeline work: every later event is safe. -/
def NoDec (l : List (Nat × PEv)) : Prop :=
  ∀ l₁ t l₂, l = l₁ ++ (t, PEv.pollAbort true) :: l₂ → ∀ p ∈ l₂, SafeEv p.2

/-- The trace contains no abort poll that read true. -/
def NoTrue (l : List (Nat × PEv)) : Prop :=
  ∀ t, (t, PEv.pollAbort true) ∉ l

/-- The latched abort flag stays set for one more poll. -/
theorem abortAt_succ (cfg : PFConfig) (t : Nat) (h : abortAt cfg t = true) :
    abortAt cfg (t + 1) = true := by
  rw [abortAt] at h ⊢
  rw [List.take_succ, List.any_append, h]
  rfl

/-- The latched abort flag is monotone: once a poll reads true, every
later poll reads true. -/
theorem abortAt_mono (cfg : PFConfig) {i j : Nat} (hij : i ≤ j)
    (h : abortAt cfg i = true) : abortAt cfg j = true := by
  induction j, hij using Nat.le_induction with
  | base => exact h
  | succ n hn ih => exact abortAt_succ cfg n ih

/-- Loop invariant for the abort analysis: either no abort has been
observed yet, or the trace is pipeline-quiescent after the observation and
the flag still reads true at the current tick. -/
def GoodTr (cfg : PFConfig) (st : PFState) : Prop :=
  NoTrue st.events ∨ (NoDec st.events ∧ abortAt cfg st.tick = true)

theorem noTrue_noDec {l : List (Nat × PEv)} (h : NoTrue l) : NoDec l := by
  intro l₁ t l₂ hsplit p hp
  exact absurd (by rw [hsplit]; exact List.mem_append_right _ (List.mem_cons_self _ _)) (h t)

theorem append_eq_append_cons {α : Type} {l m l₁ l₂ : List α} {x : α}
    (h : l ++ m = l₁ ++ x :: l₂) :
    (∃ l₃, l = l₁ ++ x :: l₃ ∧ l₂ = l₃ ++ m) ∨ (∃ m₁, l₁ = l ++ m₁ ∧ m = m₁ ++ x :: l₂) := by
  rcases List.append_eq_append_iff.mp h.symm with ⟨a, ha1, ha2⟩ | ⟨c, hc1, hc2⟩
  · cases a with
    | nil =>
      right
      exact ⟨[], by simp [ha1], by simpa using ha2.symm⟩
    | cons y a' =>
      left
      injection ha2 with hy hrest
      exact ⟨a', by rw [ha1, hy], hrest⟩
  · right
    exact ⟨c, hc1, hc2⟩

theorem noDec_append {l m : List (Nat × PEv)} (hl : NoDec l)
    (hm : ∀ p ∈ m, SafeEv p.2) : NoDec (l ++ m) := by
  intro l₁ t l₂ hsplit p hp
  rcases append_eq_append_cons hsplit with ⟨l₃, hll, hl2⟩ | ⟨m₁, _, hm2⟩
  · rw [hl2] at hp
    rcases List.mem_append.mp hp with h | h
    · exact hl l₁ t l₃ hll p h
    · exact hm p h
  · refine hm p ?_
    rw [hm2]
    exact List.mem_append_right _ (List.mem_cons_of_mem _ hp)

theorem noTrue_append {l m : List (Nat × PEv)} (hl : NoTrue l)
    (hm : ∀ t, (t, PEv.pollAbort true) ∉ m) : NoTrue (l ++ m) := by
  intro t ht
  rcases List.mem_append.mp ht with h | h
  · exact hl t h
  · exact hm t h

theorem noTrue_snoc_true {l : List (Nat × PEv)} (hl : NoTrue l) (u : Nat) :
    NoDec (l ++ [(u, PEv.pollAbort true)]) := by
  intro l₁ t l₂ hsplit p hp
  rcases append_eq_append_cons hsplit with ⟨l₃, hll, _⟩ | ⟨m₁, _, hm2⟩
  · exact absurd (by rw [hll]; exact List.mem_append_right _ (List.mem_cons_self _ _)) (hl t)
  · cases m₁ with
    | nil =>
      simp only [List.nil_append] at hm2
      injection hm2 with h1 h2
      rw [← h2] at hp
      exact absurd hp (List.not_mem_nil p)
    | cons a m' =>
      injection hm2 with h1 h2
      have h3 := h2.symm
      simp at h3

theorem goodTr_noDec {cfg : PFConfig} {st : PFState} (h : GoodTr cfg st) : NoDec st.events :=
  h.elim noTrue_noDec And.left

/-- Appending a block of events none of which is an abort poll that read
true keeps a live trace live. -/
theorem goodTr_step (cfg : PFConfig) {st st' : PFState} (ha : abortAt cfg st.tick = false)
    (hg : GoodTr cfg st) (m : List (Nat × PEv)) (hm : st'.events = st.events ++ m)
    (hnm : ∀ t, (t, PEv.pollAbort true) ∉ m) : NoTrue st'.events := by
  rcases hg with hg | ⟨_, hab⟩
  · rw [hm]
    exact noTrue_append hg hnm
  · rw [ha] at hab
    cases hab

/-- Observing the abort flag set moves the trace to the quiescent side of
the invariant: the latched flag still reads true at the next poll. -/
theorem goodTr_abort (cfg : PFConfig) {st : PFState}
    (ha : abortAt cfg st.tick = true) (hg : GoodTr cfg st) :
    GoodTr cfg (st.emit (PEv.pollAbort true)) := by
  right
  constructor
  · rw [PFState.emit_events]
    rcases hg with hg | ⟨hn, _⟩
    · exact noTrue_snoc_true hg st.tick
    · refine noDec_append hn ?_
      intro p hp
      simp at hp
      rw [hp]
      simp [SafeEv]
  · rw [PFState.emit_tick]
    exact abortAt_succ cfg st.tick ha

/-- The inner receive loop preserves the abort invariant: it polls the
abort flag at the head of every iteration and exits as soon as it reads
true, so a live trace stays live until the exit poll, and a quiescent
trace only gains the exit poll itself. -/
theorem inner_loop_good (cfg : PFConfig) :
    ∀ st, GoodTr cfg st → GoodTr cfg (inner_loop cfg st).2 := by
  refine inner_loop_rec cfg (fun s => GoodTr cfg s → GoodTr cfg (inner_loop cfg s).2)
    ?_ ?_ ?_ ?_ ?_ ?_ ?_
  · intro s ha hg
    rw [inner_loop_eq_abort cfg s ha]
    exact goodTr_abort cfg ha hg
  · intro s ha hp IH hg
    rw [inner_loop_eq_pause cfg s ha hp]
    exact IH (Or.inl (goodTr_step cfg ha hg _ (stepPause_events s)
      (by intro t ht; simp at ht)))
  · intro s ha hp hd hg
    rw [inner_loop_eq_nil cfg s ha hp hd]
    refine Or.inl (goodTr_step cfg ha hg
      [(s.tick, PEv.pollAbort false), (s.tick + 1, PEv.pollPause false),
        (s.tick + 2, PEv.recvFrame)] ?_ (by intro t ht; simp at ht))
    show (((s.emit (PEv.pollAbort false)).emit (PEv.pollPause false)).emit
      PEv.recvFrame).events = _
    simp
  · intro s f rest F' ha hp hd hf IH hg
    rw [inner_loop_eq_none cfg s f rest F' ha hp hd hf]
    exact IH (Or.inl (goodTr_step cfg ha hg _ (stepNone_events s rest F')
      (by intro t ht; simp at ht)))
  · intro s f rest pf F' ha hp hd hf hb IH hg
    rw [inner_loop_eq_bench cfg s f rest pf F' ha hp hd hf hb]
    exact IH (Or.inl (goodTr_step cfg ha hg _ (stepBench_events s rest F')
      (by intro t ht; simp at ht)))
  · intro s f rest pf F' enc' mux' ha hp hd hf hb hw IH hg
    rw [inner_loop_eq_write cfg s f rest pf F' enc' mux' ha hp hd hf hb hw]
    exact IH (Or.inl (goodTr_step cfg ha hg _ (stepWrite_events s rest F' enc' mux')
      (by intro t ht; simp at ht)))
  · intro s f rest pf F' e enc' mux' ha hp hd hf hb hw he hg
    rw [inner_loop_eq_write_err cfg s f rest pf F' e enc' mux' ha hp hd hf hb hw he]
    exact Or.inl (goodTr_step cfg ha hg _ (stepWriteErr_events s rest F' enc' mux')
      (by intro t ht; simp at ht))

/-- The outer read loop preserves the abort invariant. -/
theorem main_loop_good (cfg : PFConfig) :
    ∀ input st, GoodTr cfg st → GoodTr cfg (main_loop cfg input st).2 := by
  refine main_loop_rec cfg
    (fun input st => GoodTr cfg st → GoodTr cfg (main_loop cfg input st).2)
    ?_ ?_ ?_ ?_ ?_ ?_ ?_ ?_
  · intro input s ha hg
    rw [main_loop_eq_abort cfg input s ha]
    exact goodTr_abort cfg ha hg
  · intro s ha hg
    rw [main_loop_eq_nil cfg s ha]
    exact Or.inl (goodTr_step cfg ha hg [(s.tick, PEv.pollAbort false)]
      (PFState.emit_events s (PEv.pollAbort false)) (by intro t ht; simp at ht))
  · intro pkt rest s ha hv he hg
    rw [main_loop_eq_video_err cfg pkt rest s ha hv he]
    exact inner_loop_good cfg _ (Or.inl (goodTr_step cfg ha hg _
      (mainSend_events cfg s pkt) (by intro t ht; simp at ht)))
  · intro pkt rest s ha hv he IH hg
    rw [main_loop_eq_video cfg pkt rest s ha hv he]
    exact IH (inner_loop_good cfg _ (Or.inl (goodTr_step cfg ha hg _
      (mainSend_events cfg s pkt) (by intro t ht; simp at ht))))
  · intro pkt rest s ha hv hc hm hg
    rw [main_loop_eq_null_map cfg pkt rest s ha hv hc hm]
    refine Or.inl (goodTr_step cfg ha hg [(s.tick, PEv.pollAbort false)] ?_
      (by intro t ht; simp at ht))
    show (s.emit (PEv.pollAbort false)).events = _
    simp
  · intro pkt rest s m ha hv hc hm ho IH hg
    rw [main_loop_eq_pass cfg pkt rest s m ha hv hc hm ho]
    exact IH (Or.inl (goodTr_step cfg ha hg _ (mainPass_events s (passPkt cfg s m pkt))
      (by intro t ht; simp at ht)))
  · intro pkt rest s m ha hv hc hm ho IH hg
    rw [main_loop_eq_drop_unmapped cfg pkt rest s m ha hv hc hm ho]
    exact IH (Or.inl (goodTr_step cfg ha hg [(s.tick, PEv.pollAbort false)]
      (PFState.emit_events s (PEv.pollAbort false)) (by intro t ht; simp at ht)))
  · intro pkt rest s ha hv hc IH hg
    rw [main_loop_eq_drop cfg pkt rest s ha hv hc]
    exact IH (Or.inl (goodTr_step cfg ha hg [(s.tick, PEv.pollAbort false)]
      (PFState.emit_events s (PEv.pollAbort false)) (by intro t ht; simp at ht)))

/-- On a non-draining encoder the inner receive loop always reports
status 0: the model filter never fails and every submission succeeds. -/
theorem inner_loop_status (cfg : PFConfig) :
    ∀ st, st.enc.draining = false → (inner_loop cfg st).1 = 0 := by
  refine inner_loop_rec cfg (fun s => s.enc.draining = false → (inner_loop cfg s).1 = 0)
    ?_ ?_ ?_ ?_ ?_ ?_ ?_
  · intro s ha _
    rw [inner_loop_eq_abort cfg s ha]
  · intro s ha hp IH hdr
    rw [inner_loop_eq_pause cfg s ha hp]
    exact IH (by simpa [stepPause] using hdr)
  · intro s ha hp hd _
    rw [inner_loop_eq_nil cfg s ha hp hd]
  · intro s f rest F' ha hp hd hf IH hdr
    rw [inner_loop_eq_none cfg s f rest F' ha hp hd hf]
    exact IH (by simpa [stepNone, stepRecv] using hdr)
  · intro s f rest pf F' ha hp hd hf hb IH hdr
    rw [inner_loop_eq_bench cfg s f rest pf F' ha hp hd hf hb]
    exact IH (by simpa [stepBench, stepRecv] using hdr)
  · intro s f rest pf F' enc' mux' ha hp hd hf hb hw IH hdr
    rw [inner_loop_eq_write cfg s f rest pf F' enc' mux' ha hp hd hf hb hw]
    refine IH ?_
    have hpres := (write_frame_preserves cfg.enc_time_base cfg.enc_pix_fmt cfg.out_vstream_idx
      s.enc s.mux pf s.frame_idx).1
    rw [hw] at hpres
    show enc'.draining = false
    exact hpres.trans hdr
  · intro s f rest pf F' e enc' mux' ha hp hd hf hb hw he hdr
    exfalso
    have hspec := write_frame_spec cfg.enc_time_base cfg.enc_pix_fmt cfg.out_vstream_idx
      s.enc s.mux pf s.frame_idx hdr
    rw [hspec] at hw
    injection hw with h1 h2
    omega

/-- On a non-draining encoder with a stream map present whenever streams
are copied, the outer read loop always reports status 0 and leaves the
encoder non-draining. -/
theorem main_loop_status (cfg : PFConfig) :
    ∀ input st, st.enc.draining = false →
      (cfg.copy_streams = true → st.stream_map.isSome = true) →
      (main_loop cfg input st).1 = 0 ∧ (main_loop cfg input st).2.enc.draining = false := by
  refine main_loop_rec cfg (fun input st => st.enc.draining = false →
      (cfg.copy_streams = true → st.stream_map.isSome = true) →
      (main_loop cfg input st).1 = 0 ∧ (main_loop cfg input st).2.enc.draining = false)
    ?_ ?_ ?_ ?_ ?_ ?_ ?_ ?_
  · intro input s ha hdr _
    rw [main_loop_eq_abort cfg input s ha]
    exact ⟨rfl, by simpa using hdr⟩
  · intro s ha hdr _
    rw [main_loop_eq_nil cfg s ha]
    exact ⟨rfl, by simpa using hdr⟩
  · intro pkt rest s ha hv he hdr _
    exfalso
    have h0 := inner_loop_status cfg (mainSend cfg s pkt) (by simpa [mainSend] using hdr)
    rw [h0] at he
    exact absurd he (by decide)
  · intro pkt rest s ha hv he IH hdr hmap
    rw [main_loop_eq_video cfg pkt rest s ha hv he]
    have hst := inner_loop_stable cfg (mainSend cfg s pkt)
    refine IH ?_ ?_
    · rw [hst.2.2.1]
      simpa [mainSend] using hdr
    · intro hc
      rw [hst.1]
      simpa [mainSend] using hmap hc
  · intro pkt rest s ha hv hc hm hdr hmap
    exfalso
    have h1 := hmap hc
    rw [hm] at h1
    simp at h1
  · intro pkt rest s m ha hv hc hm ho IH hdr hmap
    rw [main_loop_eq_pass cfg pkt rest s m ha hv hc hm ho]
    refine IH ?_ ?_
    · simpa [mainPass] using hdr
    · intro hc'
      simpa [mainPass] using hmap hc'
  · intro pkt rest s m ha hv hc hm ho IH hdr hmap
    rw [main_loop_eq_drop_unmapped cfg pkt rest s m ha hv hc hm ho]
    exact IH (by simpa using hdr) (fun hc' => by simpa using hmap hc')
  · intro pkt rest s ha hv hc IH hdr hmap
    rw [main_loop_eq_drop cfg pkt rest s ha hv hc]
    exact IH (by simpa using hdr) (fun hc' => by simpa using hmap hc')

/-- The flushed-frame submission loop only appends `submitFlush` events to
the trace. -/
theorem write_flushed_events (cfg : PFConfig) (l : List VFrame) :
    ∀ st, ∃ m, (write_flushed cfg st l).2.events = st.events ++ m ∧
      ∀ p ∈ m, p.2 = PEv.submitFlush := by
  induction l with
  | nil =>
    intro st
    refine ⟨[], ?_, by intro p hp; exact absurd hp (List.not_mem_nil p)⟩
    rw [write_flushed]
    simp
  | cons f rest ih =>
    intro st
    rw [write_flushed]
    by_cases hw : (Encoder.write_frame cfg.enc_time_base cfg.enc_pix_fmt cfg.out_vstream_idx
        st.enc st.mux f st.frame_idx).1 < 0
    · refine ⟨[(st.tick, PEv.submitFlush)], ?_, ?_⟩
      · simp [hw]
      · intro p hp
        simp at hp
        rw [hp]
    · obtain ⟨m, hm, hsub⟩ := ih _
      refine ⟨(st.tick, PEv.submitFlush) :: m, ?_, ?_⟩
      · simp [hw]
        rw [hm]
        simp
      · intro p hp
        rcases List.mem_cons.mp hp with h | h
        · rw [h]
        · exact hsub p h

/-- The flush sequence of `process_frames` appends only safe events to the
trace, always including a filter flush, and — when the encoder was not yet
draining — an encoder flush after a successful drain of the flushed
frames. -/
theorem flush_tail_flush_events (cfg : PFConfig) (st : PFState)
    (hdr : st.enc.draining = false) :
    ∃ m, (flush_tail cfg st).2.events = st.events ++ m ∧
      (∀ p ∈ m, SafeEv p.2) ∧
      PEv.filterFlush ∈ m.map Prod.snd ∧ PEv.encoderFlush ∈ m.map Prod.snd := by
  rw [flush_tail]
  have h0 : (Filter.flush st.filt).1.1 = (0 : Int) := rfl
  rw [h0, if_neg (by decide : ¬((0 : Int) < 0))]
  set st1 := (({ st with filt := (Filter.flush st.filt).2 }).emit PEv.filterFlush) with hst1
  have hst1e : st1.events = st.events ++ [(st.tick, PEv.filterFlush)] := by
    rw [hst1]
    simp
  obtain ⟨m₁, hm₁, hsub⟩ := write_flushed_events cfg (Filter.flush st.filt).1.2 st1
  have hw0 : ¬(write_flushed cfg st1 (Filter.flush st.filt).1.2).1 < 0 := by
    intro hneg
    have hfail := write_flushed_fail_draining cfg _ _ hneg
    rw [hst1] at hfail
    simp at hfail
    rw [hfail] at hdr
    cases hdr
  rw [if_neg hw0]
  refine ⟨[(st.tick, PEv.filterFlush)] ++ m₁ ++
      [((write_flushed cfg st1 (Filter.flush st.filt).1.2).2.tick, PEv.encoderFlush)],
    ?_, ?_, ?_, ?_⟩
  · show ((write_flushed cfg st1 (Filter.flush st.filt).1.2).2.emit PEv.encoderFlush).events = _
    rw [PFState.emit_events, hm₁, hst1e]
    simp
  · intro p hp
    rcases List.mem_append.mp hp with h | h
    · rcases List.mem_append.mp h with h' | h'
      · simp at h'
        rw [h']
        simp [SafeEv]
      · rw [SafeEv, hsub p h']
        refine ⟨?_, ?_, ?_⟩ <;> decide
    · simp at h
      rw [h]
      simp [SafeEv]
  · simp
  · simp

/-- Configuration of the C2 counterexample: the abort flag reads true at
the very first poll, with ten video packets still pending. -/
def cfgC2x : PFConfig :=
  { cfgC1 with abortL := [true] }

/-- C2 as stated is false: observing the abort flag does exit the read
loop at once, but `process_frames` then falls through to the flush
sequence at `src/libvideo2x.cpp` lines 187-219, which is not guarded by
the abort flag — in a run whose very first abort poll reads true (with
packets still pending), the trace nevertheless contains the filter flush
and the encoder flush after the abort observation. -/
theorem c2_abort_counterexample :
    (0, PEv.pollAbort true) ∈ (process_frames cfgC2x inputC1 stC1).2.events ∧
    (1, PEv.filterFlush) ∈ (process_frames cfgC2x inputC1 stC1).2.events ∧
    (2, PEv.encoderFlush) ∈ (process_frames cfgC2x inputC1 stC1).2.events ∧
    (process_frames cfgC2x inputC1 stC1).2.events =
      [(0, PEv.pollAbort true), (1, PEv.filterFlush), (2, PEv.encoderFlush)] := by
  decide

/-- C2 (amended): in every run — the abort flag is set-only, so the
observed flag latches — once an abort poll reads true the loops issue no
further pipeline work: no packet send, no frame receive, no loop
submission appears in the trace after the observation.  But the
termination is not a hard stop without draining: the flush sequence
still runs, and on a non-draining encoder (with a stream map present
whenever streams are copied) the trace always ends with a filter flush
and an encoder flush. -/
theorem c2_abort_quiescence (cfg : PFConfig) (input : List VPacket) (st : PFState)
    (hev : st.events = [])
    (hdr : st.enc.draining = false)
    (hmap : cfg.copy_streams = true → st.stream_map.isSome = true) :
    (∀ l₁ t l₂,
      (process_frames cfg input st).2.events = l₁ ++ (t, PEv.pollAbort true) :: l₂ →
      ∀ p ∈ l₂, p.2 ≠ PEv.sendPacket ∧ p.2 ≠ PEv.recvFrame ∧ p.2 ≠ PEv.submitLoop) ∧
    PEv.filterFlush ∈ ((process_frames cfg input st).2.events.map Prod.snd) ∧
    PEv.encoderFlush ∈ ((process_frames cfg input st).2.events.map Prod.snd) := by
  have hstat := main_loop_status cfg input st hdr hmap
  have hgood : GoodTr cfg (main_loop cfg input st).2 :=
    main_loop_good cfg input st
      (Or.inl (by rw [hev]; intro t ht; exact absurd ht (List.not_mem_nil _)))
  have hnodec : NoDec (main_loop cfg input st).2.events := goodTr_noDec hgood
  have hpf : process_frames cfg input st = flush_tail cfg (main_loop cfg input st).2 := by
    rw [process_frames]
    rw [if_neg (by rw [hstat.1]; decide)]
  obtain ⟨m, hm_ev, hm_safe, hm_ff, hm_ef⟩ :=
    flush_tail_flush_events cfg (main_loop cfg input st).2 hstat.2
  refine ⟨?_, ?_, ?_⟩
  · have hnd : NoDec (process_frames cfg input st).2.events := by
      rw [hpf, hm_ev]
      exact noDec_append hnodec hm_safe
    exact hnd
  · rw [hpf, hm_ev, List.map_append]
    exact List.mem_append_right _ hm_ff
  · rw [hpf, hm_ev, List.map_append]
    exact List.mem_append_right _ hm_ef

theorem c2_abort_quiescence_witness :
    PEv.filterFlush ≠ PEv.sendPacket ∧ PEv.filterFlush ≠ PEv.recvFrame ∧
    PEv.filterFlush ≠ PEv.submitLoop ∧
    PEv.filterFlush ∈ ((process_frames cfgC2x inputC1 stC1).2.events.map Prod.snd) ∧
    PEv.encoderFlush ∈ ((process_frames cfgC2x inputC1 stC1).2.events.map Prod.snd) := by
  have h := c2_abort_quiescence cfgC2x inputC1 stC1 rfl rfl (fun hc => absurd hc (by decide))
  have hq := h.1 [] 0 [((1 : Nat), PEv.filterFlush), ((2 : Nat), PEv.encoderFlush)]
    (by decide) ((1 : Nat), PEv.filterFlush) (by decide)
  exact ⟨hq.1, hq.2.1, hq.2.2, h.2.1, h.2.2⟩
